import Mathlib

/-!
Shallow embedding, in Lean 4, of the temporal-coherence core of the
`becomingone` repository, together with proofs about the embedded code.

Sources embedded here:
- `src/becomingone/core/engine.py` (PhaseIntegrator, KAIROSTemporalEngine)
- `src/becomingone/core/coherence.py` (CollapseCondition)
- `src/becomingone/sync/layer.py` (SynchronizationLayer)
- `src/becomingone/memory/temporal.py` (TemporalSignature, PatternEcho,
  TemporalMemory)

Modelling conventions:
- Python `float` values are idealized as exact numbers: as rationals (ℚ) in
  the memory / collapse-condition modules, whose arithmetic is closed under
  the operations used there, and as reals (ℝ) in the engine / sync modules,
  which use `sqrt` (complex magnitude) and `exp`.
- Python `complex` is Lean's `ℂ`.
- `datetime` timestamps are modelled as seconds (a single number); the
  source only ever subtracts them (`total_seconds`) or formats them.
- Python `dict`s that preserve insertion order are association lists
  `List (key × value)`; a dict assignment replaces in place when the key is
  present and appends otherwise (`dictInsert`).
- A Python function that can raise returns `Except (error × state)` where
  the carried state is the object state at the moment of the raise.
-/

deriving instance DecidableEq for Except

namespace BecomingOne

/-! ## core/coherence.py: CollapseCondition -/

/-- Mutable state of `CollapseCondition` (coherence.py lines 287-310):
threshold `I_c`, the sticky collapse flag, and the recorded timestamp and
coherence of the moment of collapse. -/
structure CollapseCondition where
  threshold : ℚ
  collapsed : Bool
  collapse_timestamp : Option ℚ
  collapse_coherence : Option ℚ
deriving DecidableEq, Repr

/-- Constructor state of `CollapseCondition.__init__`: not collapsed, no
recorded timestamp or coherence. -/
def CollapseCondition.init (threshold : ℚ) : CollapseCondition :=
  { threshold := threshold
    collapsed := false
    collapse_timestamp := none
    collapse_coherence := none }

/-- Which branch of `CollapseCondition.evaluate` produced the returned
message (the source formats these as strings; only the branch identity is
meaningful). -/
inductive EvalMessage
  | maintained
  | decayed
  | collapsedNow
  | belowThreshold
deriving DecidableEq, Repr

/-- `CollapseCondition.evaluate` (coherence.py lines 334-366). Returns the
updated state together with the `(collapsed, message)` pair the source
returns. When already collapsed it reports maintained/decayed but leaves the
`collapsed` flag untouched; otherwise a coherence at or above the threshold
flips the flag and records the activating coherence and timestamp. -/
def CollapseCondition.evaluate (s : CollapseCondition) (coherence now : ℚ) :
    CollapseCondition × Bool × EvalMessage :=
  if s.collapsed then
    if s.threshold ≤ coherence then (s, true, .maintained)
    else (s, false, .decayed)
  else if s.threshold ≤ coherence then
    ({ s with collapsed := true
              collapse_timestamp := some now
              collapse_coherence := some coherence },
      true, .collapsedNow)
  else (s, false, .belowThreshold)

/-- `CollapseCondition.force_collapse` (coherence.py lines 368-378). The
source computes `coherence or self.threshold`, so both `None` and `0.0`
fall back to the threshold (Python truthiness). -/
def CollapseCondition.force_collapse (s : CollapseCondition)
    (coherence : Option ℚ) (now : ℚ) : CollapseCondition :=
  { s with collapsed := true
           collapse_timestamp := some now
           collapse_coherence :=
             some (match coherence with
                   | some c => if c = 0 then s.threshold else c
                   | none => s.threshold) }

/-- `CollapseCondition.reset` (coherence.py lines 380-386): unconditionally
returns to the NOT_COLLAPSED state. -/
def CollapseCondition.reset (s : CollapseCondition) : CollapseCondition :=
  { s with collapsed := false
           collapse_timestamp := none
           collapse_coherence := none }

/-! ## memory/temporal.py: data model -/

/-- `MemoryStrength` (temporal.py lines 35-42): six-level classification of
memory strength. -/
inductive MemoryStrength
  | transient
  | working
  | episodic
  | procedural
  | semantic
  | identity
deriving DecidableEq, Repr

/-- Numeric value of each `MemoryStrength` member (the Python enum values). -/
def MemoryStrength.value : MemoryStrength → ℚ
  | .transient => 0.2
  | .working => 0.4
  | .episodic => 0.6
  | .procedural => 0.7
  | .semantic => 0.8
  | .identity => 0.95

/-- Inverse enum lookup `MemoryStrength(v)`: `none` models the `ValueError`
Python raises on an unknown value. -/
def memoryStrengthOfValue (v : ℚ) : Option MemoryStrength :=
  if v = 0.2 then some .transient
  else if v = 0.4 then some .working
  else if v = 0.6 then some .episodic
  else if v = 0.7 then some .procedural
  else if v = 0.8 then some .semantic
  else if v = 0.95 then some .identity
  else none

/-- `TemporalSignature` (temporal.py lines 45-76). Timestamps are seconds;
the optional `content` dict is an opaque payload string. -/
structure TemporalSignature where
  signature_id : String
  coherence_value : ℚ
  phase_vector : List ℚ
  frequency_modes : List ℚ
  context_hash : String
  strength : MemoryStrength
  created_at : ℚ
  last_accessed : ℚ
  access_count : ℕ
  decay_rate : ℚ
  content : Option String
deriving DecidableEq, Repr

/-- The dictionary produced by `TemporalSignature.to_dict` (temporal.py lines
78-92): the strength enum is serialized as its numeric value and the
timestamps as ISO strings, which `datetime.fromisoformat` inverts exactly
(modelled by keeping the number itself). -/
structure SigDict where
  signature_id : String
  coherence_value : ℚ
  phase_vector : List ℚ
  frequency_modes : List ℚ
  context_hash : String
  strength : ℚ
  created_at : ℚ
  last_accessed : ℚ
  access_count : ℕ
  decay_rate : ℚ
  content : Option String
deriving DecidableEq, Repr

/-- `TemporalSignature.to_dict` (temporal.py lines 78-92). -/
def TemporalSignature.to_dict (s : TemporalSignature) : SigDict :=
  { signature_id := s.signature_id
    coherence_value := s.coherence_value
    phase_vector := s.phase_vector
    frequency_modes := s.frequency_modes
    context_hash := s.context_hash
    strength := s.strength.value
    created_at := s.created_at
    last_accessed := s.last_accessed
    access_count := s.access_count
    decay_rate := s.decay_rate
    content := s.content }

/-- `TemporalSignature.from_dict` (temporal.py lines 94-109). `none` models
the `ValueError` raised by `MemoryStrength(data["strength"])` on an unknown
strength value. -/
def TemporalSignature.from_dict (d : SigDict) : Option TemporalSignature :=
  match memoryStrengthOfValue d.strength with
  | none => none
  | some st =>
    some { signature_id := d.signature_id
           coherence_value := d.coherence_value
           phase_vector := d.phase_vector
           frequency_modes := d.frequency_modes
           context_hash := d.context_hash
           strength := st
           created_at := d.created_at
           last_accessed := d.last_accessed
           access_count := d.access_count
           decay_rate := d.decay_rate
           content := d.content }

/-- `PatternEcho` (temporal.py lines 129-143). -/
structure PatternEcho where
  echo_id : String
  source_signature_id : String
  coherence_trace : ℚ
  phase_similarity : ℚ
  temporal_offset : ℚ
  created_at : ℚ
deriving DecidableEq, Repr

/-! ## memory/temporal.py: TemporalMemory -/

/-- State of a `TemporalMemory` instance (temporal.py lines 174-213).
`bound` records whether `bind_engine` has been called (engine and calculator
set together). The three lookup caches the constructor also creates
(`coherence_index`, `strength_index`, `temporal_index`) are written but
never read by any operation modelled here (retrieval and pruning iterate
`signatures` directly), so they are not carried. -/
structure TemporalMemory where
  max_memories : ℕ
  consolidation_interval : ℕ
  decay_base : ℚ
  attention_threshold : ℚ
  signatures : List (String × TemporalSignature)
  echoes : List (String × List PatternEcho)
  bound : Bool
deriving DecidableEq, Repr

/-- Python dict assignment `d[k] = v` on an insertion-ordered dict: replace
in place when the key is present, append otherwise. -/
def dictInsert {β : Type} (l : List (String × β)) (k : String) (v : β) :
    List (String × β) :=
  if (l.lookup k).isSome then
    l.map (fun q => if q.1 = k then (k, v) else q)
  else l ++ [(k, v)]

/-- Errors the memory operations can raise. -/
inductive MemError
  | runtimeNotBound
  | attributeError
  | valueError
  | jsonDecodeError
deriving DecidableEq, Repr

/-- Stand-in for the 16-hex-character sha256 digests used for ids and
context hashes (temporal.py lines 255-257 and 602-607); no claim depends on
digest values, only on their use inside identifiers. -/
def hashDigest (s : String) : String := s

/-- `TemporalMemory._hash_context` (temporal.py lines 602-607). -/
def hash_context (context : Option String) : String :=
  match context with
  | none => ""
  | some c => hashDigest c

/-- `TemporalMemory._classify_strength` (temporal.py lines 587-600). -/
def classify_strength (coherence : ℚ) : MemoryStrength :=
  if 0.95 ≤ coherence then .identity
  else if 0.8 ≤ coherence then .semantic
  else if 0.7 ≤ coherence then .procedural
  else if 0.6 ≤ coherence then .episodic
  else if 0.4 ≤ coherence then .working
  else .transient

/-- The duck-typed argument `TemporalMemory.encode` actually reads:
attributes `coherence`, `phase_history` and `frequency_modes`. The parameter
is annotated `TemporalState` (core/engine.py lines 60-84), a dataclass that
defines only `phase`, `coherence`, `timestamp` and `metadata`; its missing
attributes are modelled as `none`, and reading a `none` attribute is the
`AttributeError` Python raises. -/
structure EncodeArg where
  coherence : ℚ
  phase_history : Option (List ℚ)
  frequency_modes : Option (List ℚ)
deriving DecidableEq, Repr

/-- The engine's `TemporalState` (core/engine.py lines 60-84) seen through
the attribute accesses of `TemporalMemory.encode`: it carries a coherence
but has neither `phase_history` nor `frequency_modes`. -/
def temporalStateArg (coherence : ℚ) : EncodeArg :=
  { coherence := coherence, phase_history := none, frequency_modes := none }

/-- Mean of the last five entries of a phase vector, as computed inside
`_create_echoes` (temporal.py lines 645-649): the slice `[-5:]` summed and
divided by the constant 5 even when fewer than five entries exist. -/
def avgLastFive (v : List ℚ) : ℚ := (v.drop (v.length - 5)).sum / 5

/-- Echo candidate test and construction for one existing signature, from
the loop body of `_create_echoes` (temporal.py lines 640-663). -/
def echoFor (signature : TemporalSignature) (now : ℚ)
    (other : String × TemporalSignature) : Option PatternEcho :=
  let phase_match : ℚ :=
    1 - min
      (if signature.phase_vector ≠ [] ∧ other.2.phase_vector ≠ [] then
        |avgLastFive signature.phase_vector - avgLastFive other.2.phase_vector|
      else 0.5) 1
  let coherence_diff := |signature.coherence_value - other.2.coherence_value|
  if 0.7 < phase_match ∧ coherence_diff < 0.2 then
    some { echo_id := "echo_" ++ signature.signature_id.take 8 ++ "_" ++ other.1.take 8
           source_signature_id := other.2.signature_id
           coherence_trace := other.2.coherence_value * 0.8
           phase_similarity := phase_match
           temporal_offset := signature.created_at - other.2.created_at
           created_at := now }
  else none

/-- `TemporalMemory._create_echoes` (temporal.py lines 635-668): scan the
first 50 stored signatures (the new signature is already stored and is
skipped by id), collect echoes for sufficiently similar ones, and record the
list under the new signature's id when nonempty. -/
def create_echoes (m : TemporalMemory) (signature : TemporalSignature)
    (now : ℚ) : TemporalMemory :=
  let candidates :=
    (m.signatures.take 50).filter (fun q => q.1 ≠ signature.signature_id)
  let echoes := candidates.filterMap (echoFor signature now)
  if echoes ≠ [] then
    { m with echoes := dictInsert m.echoes signature.signature_id echoes }
  else m

/-- Sort key comparison used by `_prune_oldest` (temporal.py lines 672-676):
Python's `sorted` with key `(strength.value, created_at)`, i.e. the
lexicographic order on that pair. -/
def pruneLE (a b : String × TemporalSignature) : Bool :=
  decide (a.2.strength.value < b.2.strength.value ∨
    (a.2.strength.value = b.2.strength.value ∧ a.2.created_at ≤ b.2.created_at))

/-- The removal test inside `_prune_oldest` (temporal.py line 681): a
stored entry whose strength value is below `MemoryStrength.EPISODIC`. -/
def weakEntry (q : String × TemporalSignature) : Bool :=
  decide (q.2.strength.value < MemoryStrength.episodic.value)

/-- `TemporalMemory._prune_oldest` (temporal.py lines 670-685): sort by
(strength value, age), walk the first `len - max_memories + 100` entries and
remove those whose strength value is below EPISODIC, dropping their echoes
with them. Only called by `encode` when `len > max_memories`, so the Python
`to_remove` is positive and agrees with the ℕ subtraction used here. -/
def prune_oldest (m : TemporalMemory) : TemporalMemory :=
  let sorted_sigs := m.signatures.mergeSort pruneLE
  let to_remove := m.signatures.length - m.max_memories + 100
  let victims := ((sorted_sigs.take to_remove).filter weakEntry).map Prod.fst
  { m with
    signatures := m.signatures.filter (fun q => !(victims.contains q.1))
    echoes := m.echoes.filter (fun q => !(victims.contains q.1)) }

/-- `TemporalMemory.encode` (temporal.py lines 220-293). Raises when the
memory is unbound (line 241); returns `none` without touching the store for
an unforced state below the attention threshold (lines 250-251); otherwise
the id generation at line 256 reads `temporal_state.phase_history`, which
raises `AttributeError` when the state lacks that attribute. When the
attributes exist the signature is built, stored, echoed, and the store is
pruned if it exceeds `max_memories`. `now` is `datetime.utcnow()`. -/
def TemporalMemory.encode (m : TemporalMemory) (temporal_state : EncodeArg)
    (context : Option String) (force_attention : Bool) (now : ℚ) :
    Except (MemError × TemporalMemory) (Option TemporalSignature × TemporalMemory) :=
  if m.bound = false then .error (.runtimeNotBound, m)
  else
    let coherence := temporal_state.coherence
    if coherence < m.attention_threshold ∧ force_attention = false then
      .ok (none, m)
    else
      match temporal_state.phase_history, temporal_state.frequency_modes with
      | some ph, some fm =>
        let content_hash :=
          hashDigest (toString (ph.getLastD 0) ++ toString coherence ++ toString now)
        let signature_id := "sig_" ++ toString now ++ "_" ++ content_hash
        let strength := classify_strength coherence
        let signature : TemporalSignature :=
          { signature_id := signature_id
            coherence_value := coherence
            phase_vector := ph.drop (ph.length - 10)
            frequency_modes := fm
            context_hash := hash_context context
            strength := strength
            created_at := now
            last_accessed := now
            access_count := 0
            decay_rate := m.decay_base * (1 - coherence * 0.5)
            content := context }
        let m1 := { m with signatures := dictInsert m.signatures signature_id signature }
        let m2 := create_echoes m1 signature now
        let m3 :=
          if m2.max_memories < m2.signatures.length then prune_oldest m2 else m2
        .ok (some signature, m3)
      | _, _ => .error (.attributeError, m)

/-- `TemporalMemory.retrieve` (temporal.py lines 295-367). Raises when the
memory is unbound (line 323). When bound, its first statement is
`self.calculator.calculate(query_state)`, and `CoherenceCalculator`
(core/coherence.py) defines no method `calculate`, so the call raises
`AttributeError`; the ranking body below that line is unreachable. -/
def TemporalMemory.retrieve (m : TemporalMemory) :
    Except (MemError × TemporalMemory) (List (TemporalSignature × ℚ)) :=
  if m.bound = false then .error (.runtimeNotBound, m)
  else .error (.attributeError, m)

/-- `TemporalMemory.recognize` (temporal.py lines 369-401): the top-1
`retrieve` result when its score reaches the threshold, touching the match
(`last_accessed`, `access_count`). Any exception from `retrieve`
propagates. -/
def TemporalMemory.recognize (m : TemporalMemory) (threshold now : ℚ) :
    Except (MemError × TemporalMemory) (Option TemporalSignature × TemporalMemory) :=
  match m.retrieve with
  | .error e => .error e
  | .ok results =>
    match results with
    | [] => .ok (none, m)
    | (sig, score) :: _ =>
      if threshold ≤ score then
        let touched :=
          { sig with last_accessed := now, access_count := sig.access_count + 1 }
        .ok (some touched,
          { m with signatures := dictInsert m.signatures sig.signature_id touched })
      else .ok (none, m)

/-! ## memory/temporal.py: persistence -/

/-- The persisted document layout written by `TemporalMemory.save`
(temporal.py lines 483-500). -/
structure MemoryDoc where
  version : String
  saved_at : ℚ
  config_max_memories : ℕ
  config_decay_base : ℚ
  config_attention_threshold : ℚ
  signatures : List (String × SigDict)
  echoes : List (String × List PatternEcho)

/-- Content of one memory file as `json.load` sees it: either unparseable
(the parse raises `json.JSONDecodeError`) or a parsed document. -/
inductive FileContent
  | unparseable
  | parsed (doc : MemoryDoc)

/-- A directory of memory files, keyed by file name. -/
abbrev FileSys : Type := List (String × FileContent)

/-- `TemporalMemory.save` (temporal.py lines 470-505): serialize the store
into the document and write it under `filename`. -/
def TemporalMemory.save (m : TemporalMemory) (fs : FileSys) (filename : String)
    (now : ℚ) : FileSys :=
  let doc : MemoryDoc :=
    { version := "1.0.0"
      saved_at := now
      config_max_memories := m.max_memories
      config_decay_base := m.decay_base
      config_attention_threshold := m.attention_threshold
      signatures := m.signatures.map (fun q => (q.1, q.2.to_dict))
      echoes := m.echoes }
  dictInsert fs filename (.parsed doc)

/-- The signature-loading loop of `TemporalMemory.load` (temporal.py lines
527-531): each entry goes through `from_dict` and is stored; a `from_dict`
failure (`ValueError`) propagates, leaving the partially updated store. -/
def loadSignatures (m : TemporalMemory) :
    List (String × SigDict) → Except (MemError × TemporalMemory) TemporalMemory
  | [] => .ok m
  | (sig_id, d) :: rest =>
    match TemporalSignature.from_dict d with
    | none => .error (.valueError, m)
    | some signature =>
      loadSignatures { m with signatures := dictInsert m.signatures sig_id signature } rest

/-- `TemporalMemory.load` (temporal.py lines 507-550): a missing file
returns 0 signatures loaded; `json.load` of an unparseable file raises; a
parsed document has its signatures and echoes merged into the store, and the
total number of stored signatures is returned. -/
def TemporalMemory.load (m : TemporalMemory) (fs : FileSys) (filename : String) :
    Except (MemError × TemporalMemory) (ℕ × TemporalMemory) :=
  match fs.lookup filename with
  | none => .ok (0, m)
  | some .unparseable => .error (.jsonDecodeError, m)
  | some (.parsed doc) =>
    match loadSignatures m doc.signatures with
    | .error e => .error e
    | .ok m1 =>
      let m2 :=
        { m1 with echoes := doc.echoes.foldl (fun es q => dictInsert es q.1 q.2) m1.echoes }
      .ok (m2.signatures.length, m2)

/-! ## core/engine.py: PhaseIntegrator and KAIROSTemporalEngine -/

/-- `TemporalConfig` (engine.py lines 87-102). -/
structure TemporalConfig where
  tau_scale : ℝ
  omega : ℝ
  coherence_threshold : ℝ
  history_size : ℕ
  dampening : ℝ

/-- `PhaseIntegrator.compute_inner_product` (engine.py lines 118-147): the
conjugate product of the two phases, renormalized to unit magnitude when the
magnitude is positive. -/
noncomputable def compute_inner_product (phase_current phase_delayed : ℂ) : ℂ :=
  let similarity := phase_current * (starRingEnd ℂ) phase_delayed
  let magnitude := Complex.abs similarity
  if 0 < magnitude then similarity / (magnitude : ℂ) else similarity

/-- The accumulation loop of `PhaseIntegrator.compute_T_tau` (engine.py
lines 176-192) over consecutive (phase, timestamp) samples: returns the
Riemann sum and the elapsed-time sum; a non-positive `dt` contributes to
neither. (The Python loop adds terms left to right; this recursion adds the
same terms tail first — addition of the same terms.) -/
noncomputable def computeTtauGo (omega : ℝ) : List (ℂ × ℝ) → ℂ × ℝ
  | (p0, t0) :: (p1, t1) :: rest =>
    let acc := computeTtauGo omega ((p1, t1) :: rest)
    let dt := t1 - t0
    if dt ≤ 0 then acc
    else
      (acc.1 + compute_inner_product p1 p0 * Complex.exp (Complex.I * omega * t1) * (dt : ℂ),
        acc.2 + dt)
  | _ => (0, 0)

/-- `PhaseIntegrator.compute_T_tau` (engine.py lines 149-197). With fewer
than 2 samples the source returns `complex(0, 0)`; the `tau` argument is
accepted but, as in the source, never used; a zero elapsed-time sum skips
the final division (the guard at line 194), leaving the zero accumulator.
The two parallel lists are consumed in lockstep (callers keep them the same
length). -/
noncomputable def compute_T_tau (phases : List ℂ) (timestamps : List ℝ)
    (_tau omega : ℝ) : ℂ :=
  if phases.length < 2 then 0
  else
    let acc := computeTtauGo omega (phases.zip timestamps)
    if 0 < acc.2 then acc.1 / (acc.2 : ℂ) else acc.1

/-- Mutable state of `KAIROSTemporalEngine` (engine.py lines 227-265). -/
structure EngineState where
  phases : List ℂ
  timestamps : List ℝ
  coherence_history : List ℝ
  collapsed : Bool
  collapse_timestamp : Option ℝ
  integration_count : ℕ

/-- Constructor state of `KAIROSTemporalEngine.__init__` (engine.py lines
255-260): unit initial phase at the construction time, coherence history
seeded with 0. -/
def initEngineState (now : ℝ) : EngineState :=
  { phases := [1]
    timestamps := [now]
    coherence_history := [0]
    collapsed := false
    collapse_timestamp := none
    integration_count := 0 }

/-- Append to a `deque(maxlen=...)`: the oldest entries fall off the front
once the length exceeds the bound. -/
def dequeAppend {α : Type} (maxlen : ℕ) (l : List α) (a : α) : List α :=
  let l2 := l ++ [a]
  if maxlen < l2.length then l2.drop (l2.length - maxlen) else l2

/-- `KAIROSTemporalEngine._compute_T_tau` (engine.py lines 329-339): the
initial unit value `complex(1, 0)` with fewer than 2 phases, otherwise the
integrator's `compute_T_tau` over the retained history. -/
noncomputable def engineComputeTtau (cfg : TemporalConfig) (st : EngineState) : ℂ :=
  if st.phases.length < 2 then 1
  else compute_T_tau st.phases st.timestamps cfg.tau_scale cfg.omega

/-- `KAIROSTemporalEngine._apply_dampening` (engine.py lines 447-458):
multiply every retained phase by the dampening factor. -/
def applyDampening (cfg : TemporalConfig) (st : EngineState) : EngineState :=
  { st with phases := st.phases.map (fun p => p * (cfg.dampening : ℂ)) }

/-- `KAIROSTemporalEngine._input_to_phase` (engine.py lines 422-445) maps
the input phrase through sha256 to a deterministic angle in [0, 2π) and
returns the unit phase `complex(cos angle, sin angle)`; the hash step is
kept abstract and the resulting angle is the argument here. -/
noncomputable def input_to_phase (angle : ℝ) : ℂ :=
  (Real.cos angle : ℂ) + (Real.sin angle : ℂ) * Complex.I

/-- The `TemporalState` (engine.py lines 60-84) returned by `temporalize`,
with the metadata entries it sets at lines 407-412 as fields. -/
structure TemporalStateR where
  phase : ℂ
  coherence : ℝ
  timestamp : ℝ
  meta_T_tau : ℂ
  meta_collapsed : Bool
  meta_integration : ℕ

/-- `KAIROSTemporalEngine.temporalize` (engine.py lines 341-420), with the
input already converted to its phase: append phase and timestamp, recompute
the resonance and coherence over the retained window, record coherence,
flip the sticky collapse flag when the threshold is first reached, dampen
the stored phases while collapsed, bump the integration counter, and return
the resulting `TemporalState` with the new engine state. -/
noncomputable def temporalize (cfg : TemporalConfig) (st : EngineState)
    (phase : ℂ) (timestamp : ℝ) : TemporalStateR × EngineState :=
  let st1 : EngineState :=
    { st with phases := dequeAppend cfg.history_size st.phases phase
              timestamps := dequeAppend cfg.history_size st.timestamps timestamp }
  let T_tau := engineComputeTtau cfg st1
  let coherence := Complex.abs T_tau ^ 2
  let st2 : EngineState :=
    { st1 with coherence_history :=
        dequeAppend cfg.history_size st1.coherence_history coherence }
  let st3 : EngineState :=
    if cfg.coherence_threshold ≤ coherence ∧ st2.collapsed = false then
      { st2 with collapsed := true, collapse_timestamp := some timestamp }
    else st2
  let st4 : EngineState := if st3.collapsed then applyDampening cfg st3 else st3
  let st5 : EngineState := { st4 with integration_count := st4.integration_count + 1 }
  ({ phase := phase
     coherence := coherence
     timestamp := timestamp
     meta_T_tau := T_tau
     meta_collapsed := st3.collapsed
     meta_integration := st5.integration_count }, st5)

/-! ## sync/layer.py: SynchronizationLayer -/

/-- `SyncConfig` (layer.py lines 40-54); `mesh_enabled` is unused by
`synchronize`. -/
structure SyncConfig where
  phase_threshold : ℝ
  collapse_threshold : ℝ
  dampening : ℝ

/-- One dissipation record (layer.py lines 219-225); the formatted reason
string is constant. -/
structure DissipationRecord where
  timestamp : ℝ
  phase_difference : ℝ
  master_coherence : ℝ
  emissary_coherence : ℝ

/-- One synchronization record (layer.py lines 239-251). -/
structure SyncRecord where
  timestamp : ℝ
  T_master : ℂ
  T_emissary : ℂ
  T_sync : ℂ
  synchronized_coherence : ℝ
  phase_difference : ℝ
  aligned : Bool
  collapsed : Bool
  dissipated : Bool
  master_integrations : ℕ
  emissary_integrations : ℕ

/-- Mutable state of `SynchronizationLayer` (layer.py lines 101-118). -/
structure SyncLayerState where
  T_sync : ℂ
  synchronized_coherence : ℝ
  phase_difference : ℝ
  aligned : Bool
  collapsed : Bool
  collapse_timestamp : Option ℝ
  sync_history : List SyncRecord
  dissipations : List DissipationRecord

/-- Constructor state of `SynchronizationLayer.__init__`. -/
def initSyncState : SyncLayerState :=
  { T_sync := 0
    synchronized_coherence := 0
    phase_difference := 0
    aligned := false
    collapsed := false
    collapse_timestamp := none
    sync_history := []
    dissipations := [] }

/-- `SynchronizationLayer.synchronize` (layer.py lines 156-259), with the
values read from the two transducers (their engines' `T_tau`, their
coherences and integration counters) passed in. Follows the source order:
phase difference and alignment, combined resonance and coherence, collapse
check, dissipation check and record, dampening when collapsed, then the
synchronization record appended to the bounded history. -/
noncomputable def synchronize (cfg : SyncConfig) (st : SyncLayerState)
    (T_master T_emissary : ℂ) (master_coherence emissary_coherence : ℝ)
    (master_integrations emissary_integrations : ℕ) (now : ℝ) :
    SyncRecord × SyncLayerState :=
  let phase_difference := |Complex.abs T_master - Complex.abs T_emissary|
  let aligned : Bool := phase_difference ≤ cfg.phase_threshold
  let T_sync0 := (T_master + T_emissary) / 2
  let coherence0 := Complex.abs T_sync0 ^ 2
  let collapsed : Bool := cfg.collapse_threshold ≤ coherence0
  let collapse_timestamp :=
    if collapsed = true ∧ st.collapsed = false then some now else st.collapse_timestamp
  let dissipated : Bool :=
    aligned = false ∧ cfg.phase_threshold * 2 < phase_difference
  let dissipations :=
    if dissipated then
      dequeAppend 1000 st.dissipations
        { timestamp := now
          phase_difference := phase_difference
          master_coherence := master_coherence
          emissary_coherence := emissary_coherence }
    else st.dissipations
  let T_sync := if collapsed then T_sync0 * (cfg.dampening : ℂ) else T_sync0
  let coherence := if collapsed then Complex.abs T_sync ^ 2 else coherence0
  let record : SyncRecord :=
    { timestamp := now
      T_master := T_master
      T_emissary := T_emissary
      T_sync := T_sync
      synchronized_coherence := coherence
      phase_difference := phase_difference
      aligned := aligned
      collapsed := collapsed
      dissipated := dissipated
      master_integrations := master_integrations
      emissary_integrations := emissary_integrations }
  (record,
    { T_sync := T_sync
      synchronized_coherence := coherence
      phase_difference := phase_difference
      aligned := aligned
      collapsed := collapsed
      collapse_timestamp := collapse_timestamp
      sync_history := dequeAppend 10000 st.sync_history record
      dissipations := dissipations })

/-! ## Proof devices for the engine claims -/

/-- Pointwise positive real scaling between two phase lists: each phase of
the second list is the corresponding phase of the first multiplied by some
positive real factor. `_apply_dampening` produces exactly such a list, and
the renormalized inner products of `compute_T_tau` cannot see the factors. -/
inductive PosScaledC : List ℂ → List ℂ → Prop
  | nil : PosScaledC [] []
  | cons (c : ℝ) (z : ℂ) {l₁ l₂ : List ℂ} :
      0 < c → PosScaledC l₁ l₂ → PosScaledC (z :: l₁) ((z * (c : ℂ)) :: l₂)

/-- The sample list of the Scenario-A run: the same phase at consecutive
integer timestamps starting at second `s`. -/
def constChain (p : ℂ) : ℕ → ℕ → List (ℂ × ℝ)
  | _, 0 => []
  | s, j + 1 => (p, (s : ℝ)) :: constChain p (s + 1) j

/-- The timestamps 0, 1, ..., n-1 of the Scenario-A run. -/
def timesList (n : ℕ) : List ℝ := (List.range n).map (fun (i : ℕ) => (i : ℝ))

/-- The Oscillator configuration of Scenario A: integration scale 1 second,
oscillation rate 2π, collapse threshold 0.9, and the engine defaults for
history size and dampening (engine.py lines 98-102). -/
noncomputable def scenarioConfig : TemporalConfig :=
  { tau_scale := 1
    omega := 2 * Real.pi
    coherence_threshold := 0.9
    history_size := 10000
    dampening := 0.999 }

/-- The Scenario-A run: a fresh engine built at time 0 fed the identical
phase (the hash image of the repeated input phrase, at angle θ) at times
1, 2, 3, ... one second apart. -/
noncomputable def runSamePhase (θ : ℝ) : ℕ → TemporalStateR × EngineState
  | 0 =>
    ({ phase := 1
       coherence := 0
       timestamp := 0
       meta_T_tau := 1
       meta_collapsed := false
       meta_integration := 0 }, initEngineState 0)
  | k + 1 =>
    temporalize scenarioConfig (runSamePhase θ k).2 (input_to_phase θ)
      ((k : ℝ) + 1)

/-- The store state after an `encode` call returns or raises: on a raise
the store is the one carried at the raise point (unchanged, since `encode`
raises before mutating). -/
def encodeStore (m : TemporalMemory) (temporal_state : EncodeArg)
    (context : Option String) (force_attention : Bool) (now : ℚ) :
    TemporalMemory :=
  match m.encode temporal_state context force_attention now with
  | .ok (_, m1) => m1
  | .error (_, m1) => m1

/-- Number of stored signatures of tier EPISODIC or above — the signatures
`_prune_oldest` never removes. -/
def strongCount (m : TemporalMemory) : ℕ :=
  (m.signatures.filter (fun q => !(weakEntry q))).length

/-- The capacity invariant that actually holds of the store: keys are
distinct (it is a dict) and the signature count is bounded by the
configured maximum or, when that is exceeded, by the number of
EPISODIC-or-stronger signatures, which pruning never removes. -/
def memInvariant (m : TemporalMemory) : Prop :=
  (m.signatures.map Prod.fst).Nodup ∧
    m.signatures.length ≤ max m.max_memories (strongCount m)

/-! ## Concrete instances used as witnesses and counterexamples -/

/-- A `TemporalMemory` with the constructor defaults of temporal.py lines
174-196, before `bind_engine` is called. -/
def unboundMem : TemporalMemory :=
  { max_memories := 10000
    consolidation_interval := 3600
    decay_base := 0.01
    attention_threshold := 0.7
    signatures := []
    echoes := []
    bound := false }

/-- The defaults store after `bind_engine` (temporal.py lines 215-218). -/
def boundMem : TemporalMemory :=
  { unboundMem with bound := true }

/-- A corrupt (unparseable) memory file under the default file name. -/
def corruptFs : FileSys := [("temporal_memory.json", .unparseable)]

/-- A concrete stored signature. -/
def sampleSignature : TemporalSignature :=
  { signature_id := "sig_a"
    coherence_value := 0.85
    phase_vector := [0.1]
    frequency_modes := []
    context_hash := ""
    strength := .semantic
    created_at := 0
    last_accessed := 0
    access_count := 0
    decay_rate := 0.01
    content := none }

/-- A bound store holding one signature. -/
def savedMem : TemporalMemory :=
  { boundMem with signatures := [("sig_a", sampleSignature)] }

/-- A bound, empty store configured with `max_memories = 0`. -/
def overflowMem : TemporalMemory :=
  { boundMem with max_memories := 0 }

/-- A duck-typed high-coherence state carrying the `phase_history` and
`frequency_modes` attributes the encode body reads. -/
def strongArg : EncodeArg :=
  { coherence := 0.85, phase_history := some [], frequency_modes := some [] }

/-! ## Claim C3 -/

/-- Claim C3: `CollapseCondition.evaluate` transitions NOT_COLLAPSED to
COLLAPSED exactly on the first call whose coherence reaches the threshold,
recording that coherence and the timestamp; once collapsed, the internal
flag stays true on every later call regardless of the coherence, the call
reporting maintained when coherence is at or above the threshold and
decayed otherwise; and `reset` returns the state to NOT_COLLAPSED. -/
theorem collapse_condition_sticky (s : CollapseCondition) (c now : ℚ) :
    ((s.evaluate c now).1.collapsed = (s.collapsed || decide (s.threshold ≤ c)))
    ∧ (s.collapsed = false → s.threshold ≤ c →
        (s.evaluate c now).1 =
          { s with collapsed := true
                   collapse_timestamp := some now
                   collapse_coherence := some c }
        ∧ (s.evaluate c now).2 = (true, .collapsedNow))
    ∧ (s.collapsed = false → c < s.threshold →
        (s.evaluate c now).1 = s ∧ (s.evaluate c now).2 = (false, .belowThreshold))
    ∧ (s.collapsed = true →
        (s.evaluate c now).1 = s
        ∧ (s.evaluate c now).2 =
            if s.threshold ≤ c then (true, .maintained) else (false, .decayed))
    ∧ s.reset.collapsed = false := by
  refine ⟨?_, ?_, ?_, ?_, rfl⟩
  · cases hs : s.collapsed <;> by_cases hc : s.threshold ≤ c <;>
      simp [CollapseCondition.evaluate, hs, hc]
  · intro hs hc
    simp [CollapseCondition.evaluate, hs, hc]
  · intro hs hc
    simp [CollapseCondition.evaluate, hs, not_le.mpr hc]
  · intro hs
    by_cases hc : s.threshold ≤ c <;> simp [CollapseCondition.evaluate, hs, hc]

/-- Witness for C3 at a concrete state: a fresh condition with threshold
0.9 evaluated at coherence 0.95 collapses, recording both values. -/
theorem collapse_condition_sticky_witness :
    (CollapseCondition.init 0.9).collapsed = false ∧ (0.9 : ℚ) ≤ 0.95 ∧
      ((CollapseCondition.init 0.9).evaluate 0.95 1).1 =
        { CollapseCondition.init 0.9 with
            collapsed := true
            collapse_timestamp := some 1
            collapse_coherence := some 0.95 } :=
  ⟨rfl, by norm_num [CollapseCondition.init],
    ((collapse_condition_sticky (CollapseCondition.init 0.9) 0.95 1).2.1 rfl
      (by norm_num [CollapseCondition.init])).1⟩

/-! ## Claim C9 -/

/-- Claim C9: on a `TemporalMemory` that has not been bound to an engine,
`encode`, `retrieve` and `recognize` all raise the descriptive RuntimeError
immediately, leaving the store unchanged (the error carries the untouched
state). -/
theorem unbound_memory_fails_fast (m : TemporalMemory) (st : EncodeArg)
    (context : Option String) (force : Bool) (threshold now enow : ℚ)
    (h : m.bound = false) :
    m.encode st context force enow = .error (.runtimeNotBound, m)
    ∧ m.retrieve = .error (.runtimeNotBound, m)
    ∧ m.recognize threshold now = .error (.runtimeNotBound, m) := by
  refine ⟨?_, ?_, ?_⟩ <;>
    simp [TemporalMemory.encode, TemporalMemory.retrieve, TemporalMemory.recognize, h]

/-- Witness for C9 on the concrete pre-binding store. -/
theorem unbound_memory_fails_fast_witness :
    unboundMem.bound = false ∧
      unboundMem.encode (temporalStateArg 0.9) none false 0 =
        .error (.runtimeNotBound, unboundMem) ∧
      unboundMem.retrieve = .error (.runtimeNotBound, unboundMem) ∧
      unboundMem.recognize 0.7 0 = .error (.runtimeNotBound, unboundMem) :=
  ⟨rfl,
    unbound_memory_fails_fast unboundMem (temporalStateArg 0.9) none false 0.7 0 0 rfl⟩

/-! ## Claim C5 -/

/-- Claim C5 (code bug): on a bound store, `encode` of a `TemporalState`
below the attention threshold without force returns `None` and leaves the
store unchanged, as claimed; but `encode(state, force=True)` does not
create a signature — the id generation at temporal.py line 256 reads
`temporal_state.phase_history`, an attribute `core.engine.TemporalState`
does not define, so the call raises `AttributeError` (the repository's own
`test_force_encode` expects a signature and a store of size 1). -/
theorem encode_force_raises_attribute_error :
    boundMem.encode (temporalStateArg 0.3) none false 0 = .ok (none, boundMem)
    ∧ boundMem.encode (temporalStateArg 0.3) none true 0 =
        .error (.attributeError, boundMem) := by
  constructor <;>
    simp [TemporalMemory.encode, boundMem, unboundMem, temporalStateArg,
      show (0.3 : ℚ) < 0.7 by norm_num]

/-! ## Claim C6 -/

/-- Counterexample for C6: loading a corrupt (unparseable) file does not
return zero signatures loaded — the `json.load` failure propagates, since
temporal.py lines 523-524 guard only the missing-file case. -/
theorem load_corrupt_file_raises :
    boundMem.load corruptFs "temporal_memory.json" =
        .error (.jsonDecodeError, boundMem)
    ∧ ∀ n : ℕ, ∀ m1 : TemporalMemory,
        boundMem.load corruptFs "temporal_memory.json" ≠ .ok (n, m1) := by
  constructor
  · rfl
  · intro n m1 h
    rw [show boundMem.load corruptFs "temporal_memory.json" =
        .error (.jsonDecodeError, boundMem) from rfl] at h
    exact Except.noConfusion h

/-- Claim C6 as amended: `load` of an absent file returns zero signatures
loaded with the store unchanged; `load` of a corrupt file raises the parse
error (with the store unchanged) rather than returning zero. -/
theorem load_missing_returns_zero (m : TemporalMemory) (fs : FileSys)
    (filename : String) :
    (fs.lookup filename = none → m.load fs filename = .ok (0, m))
    ∧ (fs.lookup filename = some .unparseable →
        m.load fs filename = .error (.jsonDecodeError, m)) := by
  constructor <;> intro h <;> simp [TemporalMemory.load, h]

/-- Witness for the amended C6 on a concrete empty directory and on the
concrete corrupt file. -/
theorem load_missing_returns_zero_witness :
    (([] : FileSys).lookup "temporal_memory.json" = none)
    ∧ boundMem.load [] "temporal_memory.json" = .ok (0, boundMem) :=
  ⟨rfl, (load_missing_returns_zero boundMem [] "temporal_memory.json").1 rfl⟩

/-! ## Claim C7: persistence round-trip -/

/-- Deserialization inverts serialization exactly on every signature. -/
theorem from_dict_to_dict (s : TemporalSignature) :
    TemporalSignature.from_dict s.to_dict = some s := by
  cases s with
  | mk id cv pv fm ch st ca la ac dr co =>
    cases st <;>
      norm_num [TemporalSignature.to_dict, TemporalSignature.from_dict,
        memoryStrengthOfValue, MemoryStrength.value]

/-- Unfolding equation for `List.lookup` on a cons cell. -/
theorem lookupCons {β : Type} (k k' : String) (v' : β) (t : List (String × β)) :
    ((k', v') :: t).lookup k = if k = k' then some v' else t.lookup k := by
  by_cases h : k = k'
  · simp [List.lookup, h]
  · have hb : (k == k') = false := by simpa using h
    simp [List.lookup, hb, h]

/-- Lookup distributes over append, preferring the left list. -/
theorem lookupAppend {β : Type} (l₁ l₂ : List (String × β)) (k : String) :
    (l₁ ++ l₂).lookup k = ((l₁.lookup k).or (l₂.lookup k)) := by
  induction l₁ with
  | nil => simp [List.lookup]
  | cons q t ih =>
    obtain ⟨k', v'⟩ := q
    by_cases hk : k = k' <;> simp [lookupCons, hk, ih]

/-- Inserting under a key makes it the key's binding. -/
theorem dictInsert_lookup_self {β : Type} (l : List (String × β)) (k : String)
    (v : β) : (dictInsert l k v).lookup k = some v := by
  induction l with
  | nil => simp [dictInsert, List.lookup, lookupCons]
  | cons q t ih =>
    obtain ⟨k', v'⟩ := q
    by_cases hk : k' = k
    · subst hk
      simp [dictInsert, lookupCons]
    · have hkk : ¬k = k' := fun h => hk h.symm
      have hhead : ((k', v') :: t).lookup k = t.lookup k := by
        simp [lookupCons, hkk]
      by_cases ht : (t.lookup k).isSome
      · have ihr : (t.map (fun q => if q.1 = k then (k, v) else q)).lookup k
            = some v := by
          have h2 := ih
          simp only [dictInsert, ht, if_true] at h2
          exact h2
        simp [dictInsert, hhead, ht, hk, lookupCons, hkk, ihr]
      · have ihr : (t ++ [(k, v)]).lookup k = some v := by
          have h2 := ih
          simp only [dictInsert, ht, if_false] at h2
          exact h2
        simp [dictInsert, hhead, eq_false_of_ne_true ht, lookupCons, hkk, ihr]

/-- The signature-loading loop over freshly-keyed serialized entries simply
appends the deserialized signatures. -/
theorem loadSignatures_fresh :
    ∀ (l : List (String × TemporalSignature)) (m : TemporalMemory),
      (l.map Prod.fst).Nodup →
      (∀ k ∈ l.map Prod.fst, m.signatures.lookup k = none) →
      loadSignatures m (l.map (fun q => (q.1, q.2.to_dict))) =
        .ok { m with signatures := m.signatures ++ l }
  | [], m, _, _ => by simp [loadSignatures]
  | (k, s) :: rest, m, hnd, hfresh => by
    have hk : m.signatures.lookup k = none := hfresh k (by simp)
    have hins : dictInsert m.signatures k s = m.signatures ++ [(k, s)] := by
      simp [dictInsert, hk]
    have hmap : ((k, s) :: rest).map Prod.fst = k :: rest.map Prod.fst := rfl
    rw [hmap] at hnd
    have hnd' : (rest.map Prod.fst).Nodup := (List.nodup_cons.mp hnd).2
    have hknotin : k ∉ rest.map Prod.fst := (List.nodup_cons.mp hnd).1
    have hfresh' : ∀ k' ∈ rest.map Prod.fst,
        (m.signatures ++ [(k, s)]).lookup k' = none := by
      intro k' hk'
      rw [lookupAppend]
      have h1 : m.signatures.lookup k' = none := by
        apply hfresh
        rw [hmap]
        exact List.mem_cons_of_mem _ hk'
      have h2 : ([(k, s)] : List (String × TemporalSignature)).lookup k' = none := by
        have hne : ¬k' = k := fun h => hknotin (h ▸ hk')
        simp [lookupCons, hne]
      simp [h1, h2]
    have ih := loadSignatures_fresh rest
      { m with signatures := m.signatures ++ [(k, s)] } hnd' hfresh'
    simp only [List.map_cons, loadSignatures, from_dict_to_dict, hins, ih]
    simp [List.append_assoc]

/-- Claim C7: saving a store and loading the file into a fresh store
reproduces the same signature count, and for each id the loaded
signature's coherence equals the saved one. -/
theorem save_load_roundtrip (m m0 : TemporalMemory) (fs : FileSys)
    (filename : String) (now : ℚ)
    (hnd : (m.signatures.map Prod.fst).Nodup) (h0 : m0.signatures = []) :
    ∃ m1, m0.load (m.save fs filename now) filename = .ok (m.signatures.length, m1)
      ∧ ∀ sid, (m1.signatures.lookup sid).map TemporalSignature.coherence_value
          = (m.signatures.lookup sid).map TemporalSignature.coherence_value := by
  have hfresh : ∀ k ∈ m.signatures.map Prod.fst, m0.signatures.lookup k = none := by
    intro k _
    simp [h0, List.lookup]
  have hload := loadSignatures_fresh m.signatures m0 hnd hfresh
  simp only [h0, List.nil_append] at hload
  refine ⟨{ m0 with
      signatures := m.signatures
      echoes := m.echoes.foldl (fun es q => dictInsert es q.1 q.2) m0.echoes },
    ?_, fun sid => rfl⟩
  simp only [TemporalMemory.load, TemporalMemory.save, dictInsert_lookup_self,
    hload]

/-- Witness for C7: a one-signature store saved to an empty directory and
loaded into the fresh default store reports one signature loaded and
preserves its coherence. -/
theorem save_load_roundtrip_witness :
    (savedMem.signatures.map Prod.fst).Nodup ∧ boundMem.signatures = [] ∧
      ∃ m1, boundMem.load (savedMem.save [] "temporal_memory.json" 3)
          "temporal_memory.json" = .ok (savedMem.signatures.length, m1)
        ∧ ∀ sid, (m1.signatures.lookup sid).map TemporalSignature.coherence_value
            = (savedMem.signatures.lookup sid).map TemporalSignature.coherence_value :=
  ⟨by simp [savedMem, boundMem, unboundMem], rfl,
    save_load_roundtrip savedMem boundMem [] "temporal_memory.json" 3
      (by simp [savedMem, boundMem, unboundMem]) rfl⟩

/-! ## Claim C4: capacity behaviour of encode and prune -/

/-- The prune ordering is transitive. -/
theorem pruneLE_trans (a b c : String × TemporalSignature) :
    pruneLE a b = true → pruneLE b c = true → pruneLE a c = true := by
  simp only [pruneLE, decide_eq_true_eq]
  rintro (h1 | ⟨h1, h1'⟩) (h2 | ⟨h2, h2'⟩)
  · exact Or.inl (lt_trans h1 h2)
  · exact Or.inl (h2 ▸ h1)
  · exact Or.inl (h1 ▸ h2)
  · exact Or.inr ⟨h1.trans h2, le_trans h1' h2'⟩

/-- The prune ordering is total. -/
theorem pruneLE_total (a b : String × TemporalSignature) :
    (pruneLE a b || pruneLE b a) = true := by
  simp only [pruneLE, Bool.or_eq_true, decide_eq_true_eq]
  rcases lt_trichotomy a.2.strength.value b.2.strength.value with h | h | h
  · exact Or.inl (Or.inl h)
  · rcases le_total a.2.created_at b.2.created_at with h' | h'
    · exact Or.inl (Or.inr ⟨h, h'⟩)
    · exact Or.inr (Or.inr ⟨h.symm, h'⟩)
  · exact Or.inr (Or.inl h)

/-- In a store with distinct keys, an entry is determined by its key. -/
theorem entry_eq_of_key_eq :
    ∀ {l : List (String × TemporalSignature)},
      (l.map Prod.fst).Nodup →
      ∀ {q q' : String × TemporalSignature},
        q ∈ l → q' ∈ l → q.1 = q'.1 → q = q'
  | [], _, _, _, hq, _, _ => absurd hq (List.not_mem_nil _)
  | p :: t, hnd, q, q', hq, hq', hk => by
    rw [List.map_cons, List.nodup_cons] at hnd
    rcases List.mem_cons.mp hq with h1 | h1 <;>
      rcases List.mem_cons.mp hq' with h2 | h2
    · rw [h1, h2]
    · exfalso
      apply hnd.1
      rw [← h1, hk]
      exact List.mem_map_of_mem Prod.fst h2
    · exfalso
      apply hnd.1
      rw [← h2, ← hk]
      exact List.mem_map_of_mem Prod.fst h1
    · exact entry_eq_of_key_eq hnd.2 h1 h2 hk

/-- A present key has a `some` lookup. -/
theorem lookup_isSome_of_mem_keys {β : Type} :
    ∀ {l : List (String × β)} {k : String},
      k ∈ l.map Prod.fst → (l.lookup k).isSome = true
  | [], _, hk => absurd hk (List.not_mem_nil _)
  | (k', v') :: t, k, hk => by
    by_cases h : k = k'
    · simp [lookupCons, h]
    · have : k ∈ t.map Prod.fst := by
        rcases List.mem_cons.mp hk with h1 | h1
        · exact absurd h1 h
        · exact h1
      simp [lookupCons, h, lookup_isSome_of_mem_keys this]

/-- `dictInsert` preserves distinctness of keys. -/
theorem dictInsert_keys_nodup {β : Type} {l : List (String × β)}
    (hnd : (l.map Prod.fst).Nodup) (k : String) (v : β) :
    ((dictInsert l k v).map Prod.fst).Nodup := by
  unfold dictInsert
  by_cases h : (l.lookup k).isSome
  · have hkeys : (l.map (fun q => if q.1 = k then (k, v) else q)).map Prod.fst
        = l.map Prod.fst := by
      rw [List.map_map]
      apply List.map_congr_left
      intro q _
      by_cases hq : q.1 = k <;> simp [hq]
    rw [if_pos h, hkeys]
    exact hnd
  · have hk : k ∉ l.map Prod.fst := fun hmem => h (lookup_isSome_of_mem_keys hmem)
    rw [if_neg h, List.map_append, List.map_cons, List.map_nil, List.nodup_append]
    exact ⟨hnd, List.nodup_singleton k,
      fun a ha hb => by
        rcases List.mem_singleton.mp hb with rfl
        exact hk ha⟩

/-- `dictInsert` grows the store by at most one entry. -/
theorem dictInsert_length_le {β : Type} (l : List (String × β)) (k : String)
    (v : β) : (dictInsert l k v).length ≤ l.length + 1 := by
  unfold dictInsert
  by_cases h : (l.lookup k).isSome <;> simp [h]

/-- `_create_echoes` touches only the echo map. -/
theorem create_echoes_signatures (m : TemporalMemory)
    (sig : TemporalSignature) (now : ℚ) :
    (create_echoes m sig now).signatures = m.signatures := by
  simp only [create_echoes]
  split <;> rfl

/-- `_create_echoes` keeps the configuration. -/
theorem create_echoes_max (m : TemporalMemory) (sig : TemporalSignature)
    (now : ℚ) : (create_echoes m sig now).max_memories = m.max_memories := by
  simp only [create_echoes]
  split <;> rfl

/-- Removing a distinct set of present keys removes exactly that many
entries. -/
theorem filter_out_keys_length :
    ∀ (l : List (String × TemporalSignature)) (V : List String),
      (l.map Prod.fst).Nodup → V.Nodup → (∀ k ∈ V, k ∈ l.map Prod.fst) →
      (l.filter (fun q => !(V.contains q.1))).length = l.length - V.length
  | [], V, _, _, hsub => by
    cases V with
    | nil => simp
    | cons k t => exact absurd (hsub k (by simp)) (List.not_mem_nil _)
  | (k0, v0) :: t, V, hnd, hVnd, hsub => by
    rw [List.map_cons, List.nodup_cons] at hnd
    by_cases hv : k0 ∈ V
    · have hVlen : V.length = (V.erase k0).length + 1 := by
        rw [List.length_erase_of_mem hv]
        have : 0 < V.length := List.length_pos.mpr (List.ne_nil_of_mem hv)
        omega
      have hVnd' : (V.erase k0).Nodup := hVnd.erase k0
      have hsub' : ∀ k ∈ V.erase k0, k ∈ t.map Prod.fst := by
        intro k hk
        have hk2 := (hVnd.mem_erase_iff.mp hk)
        rcases List.mem_cons.mp (hsub k hk2.2) with h1 | h1
        · exact absurd h1 hk2.1
        · exact h1
      have hfc : t.filter (fun q => !(V.contains q.1))
          = t.filter (fun q => !((V.erase k0).contains q.1)) := by
        apply List.filter_congr
        intro q hq
        have hqne : q.1 ≠ k0 := by
          intro h
          have hm : q.1 ∈ t.map Prod.fst := List.mem_map_of_mem Prod.fst hq
          rw [h] at hm
          exact hnd.1 hm
        by_cases hmem : q.1 ∈ V
        · have hm' : q.1 ∈ V.erase k0 := hVnd.mem_erase_iff.mpr ⟨hqne, hmem⟩
          simp [hmem, hm']
        · have hm' : q.1 ∉ V.erase k0 := fun h => hmem (hVnd.mem_erase_iff.mp h).2
          simp [hmem, hm']
      have ih := filter_out_keys_length t (V.erase k0) hnd.2 hVnd' hsub'
      have hhead : ((V.contains k0) : Bool) = true := by simp [hv]
      simp only [List.filter_cons, hhead, Bool.not_true, Bool.false_eq_true,
        if_false, List.length_cons]
      rw [hfc, ih, hVlen]
      omega
    · have hsub' : ∀ k ∈ V, k ∈ t.map Prod.fst := by
        intro k hk
        rcases List.mem_cons.mp (hsub k hk) with h1 | h1
        · rw [h1] at hk
          exact absurd hk hv
        · exact h1
      have ih := filter_out_keys_length t V hnd.2 hVnd hsub'
      have hVle : V.length ≤ (t.map Prod.fst).length :=
        (List.subperm_of_subset hVnd hsub').length_le
      rw [List.length_map] at hVle
      have hhead : ((V.contains k0) : Bool) = false := by simp [hv]
      simp only [List.filter_cons, hhead, Bool.not_false, if_true,
        List.length_cons]
      rw [ih]
      omega

/-- Past the weak prefix of a prune-sorted list, every entry is strong: the
sort key puts all below-EPISODIC entries first. -/
theorem dropWhile_weak_all_strong :
    ∀ (l : List (String × TemporalSignature)),
      l.Pairwise (fun a b => pruneLE a b = true) →
      ∀ q ∈ l.dropWhile weakEntry, weakEntry q = false
  | [], _, q, hq => absurd hq (by simp)
  | p :: t, hp, q, hq => by
    rw [List.pairwise_cons] at hp
    by_cases hw : weakEntry p = true
    · rw [List.dropWhile_cons_of_pos hw] at hq
      exact dropWhile_weak_all_strong t hp.2 q hq
    · rw [List.dropWhile_cons_of_neg hw] at hq
      have hpv : MemoryStrength.episodic.value ≤ p.2.strength.value := by
        simpa [weakEntry, not_lt] using hw
      rcases List.mem_cons.mp hq with h1 | h1
      · rw [h1]
        exact eq_false_of_ne_true hw
      · have hle : p.2.strength.value ≤ q.2.strength.value := by
          have h2 := hp.1 q h1
          simp only [pruneLE, decide_eq_true_eq] at h2
          rcases h2 with h2 | ⟨h2, _⟩
          · exact le_of_lt h2
          · exact le_of_eq h2
        simp only [weakEntry, decide_eq_false_iff_not, not_lt]
        exact le_trans hpv hle

/-- Properties of the victim key set computed by `_prune_oldest`: its keys
are distinct store keys, there are `min to_remove weakCount` of them, and
when the budget covers the weak count it contains every weak entry's key. -/
theorem prune_victims_spec (L : List (String × TemporalSignature)) (R : ℕ)
    (hnd : (L.map Prod.fst).Nodup) :
    let V := (((L.mergeSort pruneLE).take R).filter weakEntry).map Prod.fst
    V.Nodup ∧ (∀ k ∈ V, k ∈ L.map Prod.fst)
      ∧ V.length = min R (L.countP weakEntry)
      ∧ (L.countP weakEntry ≤ R →
          ∀ q ∈ L, weakEntry q = true → q.1 ∈ V) := by
  intro V
  have hperm : (L.mergeSort pruneLE).Perm L := List.mergeSort_perm L pruneLE
  have hsorted : (L.mergeSort pruneLE).Pairwise (fun a b => pruneLE a b = true) :=
    List.sorted_mergeSort pruneLE_trans pruneLE_total L
  have hAB : (L.mergeSort pruneLE).takeWhile weakEntry
      ++ (L.mergeSort pruneLE).dropWhile weakEntry = L.mergeSort pruneLE :=
    List.takeWhile_append_dropWhile weakEntry _
  have hAweak : ∀ q ∈ (L.mergeSort pruneLE).takeWhile weakEntry,
      weakEntry q = true := fun q hq => List.mem_takeWhile_imp hq
  have hBstrong : ∀ q ∈ (L.mergeSort pruneLE).dropWhile weakEntry,
      weakEntry q = false := dropWhile_weak_all_strong _ hsorted
  have hcount : L.countP weakEntry
      = ((L.mergeSort pruneLE).takeWhile weakEntry).length := by
    have h1 : List.countP weakEntry ((L.mergeSort pruneLE).takeWhile weakEntry)
        = ((L.mergeSort pruneLE).takeWhile weakEntry).length :=
      List.countP_eq_length.mpr hAweak
    have h2 : List.countP weakEntry ((L.mergeSort pruneLE).dropWhile weakEntry)
        = 0 :=
      List.countP_eq_zero.mpr (fun q hq => by rw [hBstrong q hq]; simp)
    have hSc : (L.mergeSort pruneLE).countP weakEntry
        = List.countP weakEntry ((L.mergeSort pruneLE).takeWhile weakEntry)
          + List.countP weakEntry ((L.mergeSort pruneLE).dropWhile weakEntry) := by
      conv_lhs => rw [← hAB]
      rw [List.countP_append]
    rw [← hperm.countP_eq weakEntry, hSc, h1, h2, Nat.add_zero]
  have hfilter : ((L.mergeSort pruneLE).take R).filter weakEntry
      = ((L.mergeSort pruneLE).takeWhile weakEntry).take R := by
    conv_lhs => rw [← hAB]
    rw [List.take_append_eq_append_take, List.filter_append]
    have h1 : (((L.mergeSort pruneLE).takeWhile weakEntry).take R).filter
        weakEntry = ((L.mergeSort pruneLE).takeWhile weakEntry).take R :=
      List.filter_eq_self.mpr (fun q hq => hAweak q (List.mem_of_mem_take hq))
    have h2 : (((L.mergeSort pruneLE).dropWhile weakEntry).take
        (R - ((L.mergeSort pruneLE).takeWhile weakEntry).length)).filter
        weakEntry = [] :=
      List.filter_eq_nil_iff.mpr (fun q hq => by
        rw [hBstrong q (List.mem_of_mem_take hq)]
        simp)
    rw [h1, h2, List.append_nil]
  have hsubl : ((L.mergeSort pruneLE).take R).filter weakEntry |>.Sublist
      (L.mergeSort pruneLE) :=
    (List.filter_sublist _).trans (List.take_sublist R _)
  refine ⟨?_, ?_, ?_, ?_⟩
  · have hndS : ((L.mergeSort pruneLE).map Prod.fst).Nodup :=
      ((hperm.map Prod.fst).nodup_iff).mpr hnd
    exact (hsubl.map Prod.fst).nodup hndS
  · intro k hk
    rcases List.mem_map.mp hk with ⟨q, hq, rfl⟩
    exact List.mem_map_of_mem Prod.fst (hperm.mem_iff.mp (hsubl.mem hq))
  · rw [List.length_map, hfilter, List.length_take, hcount]
  · intro hwR q hqL hqW
    have hqS : q ∈ L.mergeSort pruneLE := hperm.mem_iff.mpr hqL
    rw [← hAB] at hqS
    rcases List.mem_append.mp hqS with h1 | h1
    · have htakeall : ((L.mergeSort pruneLE).takeWhile weakEntry).take R
          = (L.mergeSort pruneLE).takeWhile weakEntry :=
        List.take_of_length_le (by omega)
      have : q ∈ ((L.mergeSort pruneLE).take R).filter weakEntry := by
        rw [hfilter, htakeall]
        exact h1
      exact List.mem_map_of_mem Prod.fst this
    · rw [hBstrong q h1] at hqW
      cases hqW

/-- Effect of `_prune_oldest` on the store: distinct keys are kept, and the
resulting size is bounded by `max_memories` or by the strong-signature
count, whichever is larger (the strong entries are never removed). -/
theorem prune_oldest_spec (m : TemporalMemory)
    (hnd : (m.signatures.map Prod.fst).Nodup)
    (hover : m.max_memories < m.signatures.length) :
    ((prune_oldest m).signatures.map Prod.fst).Nodup ∧
      (prune_oldest m).signatures.length
        ≤ max m.max_memories (strongCount (prune_oldest m)) := by
  obtain ⟨hVnd, hVsub, hVlen, hVall⟩ :=
    prune_victims_spec m.signatures (m.signatures.length - m.max_memories + 100)
      hnd
  have hres : (prune_oldest m).signatures
      = m.signatures.filter (fun q =>
          !(((((m.signatures.mergeSort pruneLE).take
              (m.signatures.length - m.max_memories + 100)).filter
              weakEntry).map Prod.fst).contains q.1)) := rfl
  have hlen := filter_out_keys_length m.signatures _ hnd hVnd hVsub
  constructor
  · rw [hres]
    exact ((List.filter_sublist _).map Prod.fst).nodup hnd
  · rw [hres, hlen, hVlen]
    by_cases hcase :
        m.signatures.countP weakEntry
          ≤ m.signatures.length - m.max_memories + 100
    · -- every weak entry is removed: the survivors are exactly the strong ones
      have hstrong : ∀ q ∈ (prune_oldest m).signatures, weakEntry q = false := by
        intro q hq
        rw [hres] at hq
        rcases List.mem_filter.mp hq with ⟨hqL, hqcond⟩
        by_contra hqw
        rw [Bool.not_eq_false] at hqw
        have hkV := hVall hcase q hqL hqw
        simp [hkV] at hqcond
      have hsc : strongCount (prune_oldest m)
          = (prune_oldest m).signatures.length := by
        unfold strongCount
        rw [List.filter_eq_self.mpr (fun q hq => by
          rw [hstrong q hq]
          rfl)]
      have htotal := List.length_eq_countP_add_countP weakEntry m.signatures
      rw [min_eq_right hcase]
      refine le_max_of_le_right ?_
      rw [hsc, hres, hlen, hVlen, min_eq_right hcase]
    · refine le_max_of_le_left ?_
      omega

/-- `_prune_oldest` keeps the configuration. -/
theorem prune_oldest_max (m : TemporalMemory) :
    (prune_oldest m).max_memories = m.max_memories := rfl

/-- The store produced by the signature-storing path of `encode` (store,
echo, prune when over capacity) satisfies the capacity invariant, with no
assumption beyond distinct keys. -/
theorem insert_then_prune_invariant (m : TemporalMemory) (sid : String)
    (sig : TemporalSignature) (now : ℚ)
    (hnd : (m.signatures.map Prod.fst).Nodup) :
    memInvariant
      (if (create_echoes { m with signatures := dictInsert m.signatures sid sig }
            sig now).max_memories
          < (create_echoes { m with signatures := dictInsert m.signatures sid sig }
            sig now).signatures.length
       then prune_oldest (create_echoes
            { m with signatures := dictInsert m.signatures sid sig } sig now)
       else create_echoes { m with signatures := dictInsert m.signatures sid sig }
            sig now) := by
  have hnd2 : ((create_echoes { m with signatures := dictInsert m.signatures sid sig }
      sig now).signatures.map Prod.fst).Nodup := by
    rw [create_echoes_signatures]
    exact dictInsert_keys_nodup hnd sid sig
  by_cases hov : (create_echoes { m with signatures := dictInsert m.signatures sid sig }
      sig now).max_memories
      < (create_echoes { m with signatures := dictInsert m.signatures sid sig }
        sig now).signatures.length
  · rw [if_pos hov]
    obtain ⟨h1, h2⟩ := prune_oldest_spec _ hnd2 hov
    refine ⟨h1, ?_⟩
    rw [prune_oldest_max]
    exact h2
  · rw [if_neg hov]
    exact ⟨hnd2, le_max_of_le_left (not_lt.mp hov)⟩

/-- Claim C4 as amended: after every `encode` call (including raising and
no-op calls, given the invariant held before), the store keeps distinct
keys and its size stays within `max max_memories strongCount`; the
configured maximum alone does not bound the store, because `_prune_oldest`
never removes signatures of tier EPISODIC or above. -/
theorem encode_respects_capacity (m : TemporalMemory) (st : EncodeArg)
    (context : Option String) (force : Bool) (now : ℚ)
    (h : memInvariant m) :
    memInvariant (encodeStore m st context force now) := by
  unfold encodeStore TemporalMemory.encode
  by_cases hb : m.bound = false
  · rw [if_pos hb]
    exact h
  · rw [if_neg hb]
    by_cases hlow : st.coherence < m.attention_threshold ∧ force = false
    · rw [if_pos hlow]
      exact h
    · rw [if_neg hlow]
      cases hph : st.phase_history with
      | none =>
        cases hfm : st.frequency_modes <;> exact h
      | some ph =>
        cases hfm : st.frequency_modes with
        | none => exact h
        | some fm =>
          exact insert_then_prune_invariant m _ _ now h.1

/-- Counterexample for C4: a bound store configured with `max_memories = 0`
that encodes one coherence-0.85 (SEMANTIC tier) state ends the call holding
one signature — more than the configured maximum, because the pruning pass
refuses to remove EPISODIC-or-stronger signatures. -/
theorem encode_exceeds_max_memories :
    overflowMem.max_memories
      < (encodeStore overflowMem strongArg none false 7).signatures.length := by
  unfold encodeStore TemporalMemory.encode
  norm_num [overflowMem, boundMem, unboundMem, strongArg, dictInsert,
    create_echoes, prune_oldest, classify_strength, weakEntry,
    MemoryStrength.value, List.lookup, echoFor]

/-- Witness for the amended C4 at a concrete in-invariant store. -/
theorem encode_respects_capacity_witness :
    memInvariant savedMem ∧
      memInvariant (encodeStore savedMem strongArg none false 7) := by
  have hinv : memInvariant savedMem := by
    constructor
    · simp [savedMem, boundMem, unboundMem]
    · simp [savedMem, boundMem, unboundMem]
  exact ⟨hinv, encode_respects_capacity savedMem strongArg none false 7 hinv⟩

/-! ## Claim C2: dissipation and the combined state -/

/-- The newest element of a bounded deque after an append is the appended
one. -/
theorem dequeAppend_getLast {α : Type} (maxlen : ℕ) (hm : 0 < maxlen)
    (l : List α) (a : α) : (dequeAppend maxlen l a).getLast? = some a := by
  simp only [dequeAppend]
  split
  · rw [List.getLast?_drop]
    split
    · omega
    · exact List.getLast?_concat l
  · exact List.getLast?_concat l

/-- Counterexample for C2: with phase threshold 0.1, resonances 1 and 0
give phase difference 1 > 2 × 0.1, so the tick is dissipated — yet the
combined state is still overwritten: `T_sync` moves from its prior value 0
to (1+0)/2. The source updates `_T_sync` and `_synchronized_coherence`
(layer.py lines 198-199) before the dissipation check (line 216) and never
rolls them back. -/
theorem sync_dissipated_still_updates :
    ((synchronize ⟨0.1, 0.8, 0.995⟩ initSyncState 1 0 0 0 0 0 0).1.dissipated
        = true)
    ∧ (synchronize ⟨0.1, 0.8, 0.995⟩ initSyncState 1 0 0 0 0 0 0).2.dissipations.length
        = initSyncState.dissipations.length + 1
    ∧ (synchronize ⟨0.1, 0.8, 0.995⟩ initSyncState 1 0 0 0 0 0 0).2.T_sync
        ≠ initSyncState.T_sync := by
  have hpd : |Complex.abs 1 - Complex.abs 0| = 1 := by
    rw [map_one, map_zero]
    norm_num
  have habs : Complex.abs ((1 + 0) / 2) = 1 / 2 := by
    rw [map_div₀, Complex.abs_two]
    norm_num
  refine ⟨?_, ?_, ?_⟩ <;>
    simp only [synchronize, initSyncState, hpd, habs, dequeAppend] <;>
    norm_num

/-- Claim C2 as amended: when the phase difference exceeds twice the phase
threshold a dissipation event is recorded (it becomes the newest entry of
the dissipation log), but the combined state is not frozen — the
post-call `combined_resonance` and `combined_coherence` are functions of
the two input resonances and the configuration alone, identical across any
two prior states, so nothing of the previous combined value is retained. -/
theorem sync_combined_state_from_inputs (cfg : SyncConfig)
    (st1 st2 : SyncLayerState) (Tm Te : ℂ) (mc ec : ℝ) (mi ei : ℕ) (now : ℝ) :
    ((synchronize cfg st1 Tm Te mc ec mi ei now).2.T_sync
        = (synchronize cfg st2 Tm Te mc ec mi ei now).2.T_sync)
    ∧ ((synchronize cfg st1 Tm Te mc ec mi ei now).2.synchronized_coherence
        = (synchronize cfg st2 Tm Te mc ec mi ei now).2.synchronized_coherence)
    ∧ ((synchronize cfg st1 Tm Te mc ec mi ei now).1.dissipated = true →
        (synchronize cfg st1 Tm Te mc ec mi ei now).2.dissipations.getLast?
          = some { timestamp := now
                   phase_difference := |Complex.abs Tm - Complex.abs Te|
                   master_coherence := mc
                   emissary_coherence := ec }) := by
  refine ⟨rfl, rfl, ?_⟩
  intro hdis
  simp only [synchronize] at hdis ⊢
  rw [if_pos hdis]
  exact dequeAppend_getLast 1000 (by norm_num) _ _

/-- Witness for the amended C2 at the concrete dissipating input. -/
theorem sync_combined_state_from_inputs_witness :
    ((synchronize ⟨0.1, 0.8, 0.995⟩ initSyncState 1 0 0 0 0 0 0).1.dissipated
        = true) ∧
      (synchronize ⟨0.1, 0.8, 0.995⟩ initSyncState 1 0 0 0 0 0 0).2.dissipations.getLast?
        = some { timestamp := 0
                 phase_difference := |Complex.abs 1 - Complex.abs 0|
                 master_coherence := 0
                 emissary_coherence := 0 } :=
  ⟨sync_dissipated_still_updates.1,
    (sync_combined_state_from_inputs ⟨0.1, 0.8, 0.995⟩ initSyncState
        initSyncState 1 0 0 0 0 0 0).2.2 sync_dissipated_still_updates.1⟩

/-! ## Claim C1: resonance defaults -/

/-- The elapsed-time accumulator of the `compute_T_tau` loop is
nonnegative. -/
theorem computeTtauGo_snd_nonneg (omega : ℝ) :
    ∀ l : List (ℂ × ℝ), 0 ≤ (computeTtauGo omega l).2
  | [] => by simp [computeTtauGo]
  | [_] => by simp [computeTtauGo]
  | (p0, t0) :: (p1, t1) :: rest => by
    have ih := computeTtauGo_snd_nonneg omega ((p1, t1) :: rest)
    simp only [computeTtauGo]
    split
    · exact ih
    · next h =>
      have hdt : (0 : ℝ) < t1 - t0 := lt_of_not_le h
      simp only []
      linarith

/-- When the elapsed-time sum of the loop is zero, no term was ever
accumulated, so the Riemann sum is zero as well. -/
theorem computeTtauGo_fst_zero (omega : ℝ) :
    ∀ l : List (ℂ × ℝ),
      (computeTtauGo omega l).2 = 0 → (computeTtauGo omega l).1 = 0
  | [] => fun _ => rfl
  | [_] => fun _ => rfl
  | (p0, t0) :: (p1, t1) :: rest => by
    intro h
    have hnn := computeTtauGo_snd_nonneg omega ((p1, t1) :: rest)
    simp only [computeTtauGo] at h ⊢
    split at h
    · next hdt =>
      rw [if_pos hdt]
      exact computeTtauGo_fst_zero omega ((p1, t1) :: rest) h
    · next hdt =>
      have hdt2 : (0 : ℝ) < t1 - t0 := lt_of_not_le hdt
      simp only [] at h
      linarith

/-- Counterexample for C1: `PhaseIntegrator.compute_T_tau` does not return
the unit value 1+0i in the degenerate cases — it returns 0+0i, both with
fewer than 2 samples (line 171 returns `complex(0, 0)`) and with a zero
elapsed-time sum (the accumulator stays `complex(0, 0)` and the division is
skipped). -/
theorem compute_T_tau_degenerate_not_unit :
    (compute_T_tau [] [] 1 1 = 0 ∧ compute_T_tau [] [] 1 1 ≠ 1)
    ∧ (compute_T_tau [1, Complex.I] [0, 0] 1 1 = 0
        ∧ compute_T_tau [1, Complex.I] [0, 0] 1 1 ≠ 1) := by
  have h1 : compute_T_tau [] [] 1 1 = 0 := by
    simp [compute_T_tau]
  have h2 : compute_T_tau [1, Complex.I] [0, 0] 1 1 = 0 := by
    simp [compute_T_tau, computeTtauGo]
  refine ⟨⟨h1, ?_⟩, h2, ?_⟩ <;> simp [h1, h2]

/-- Claim C1 as amended: with fewer than 2 samples the integrator's
`compute_T_tau` returns 0+0i while the engine's `_compute_T_tau` returns
1+0i; with a zero elapsed-time sum the integrator returns 0+0i, the
division being skipped by the guard — in every case a value is returned
and no error is raised (the functions are total). -/
theorem resonance_degenerate_defaults (phases : List ℂ) (timestamps : List ℝ)
    (tau omega : ℝ) (cfg : TemporalConfig) (st : EngineState) :
    (phases.length < 2 → compute_T_tau phases timestamps tau omega = 0)
    ∧ (st.phases.length < 2 → engineComputeTtau cfg st = 1)
    ∧ ((computeTtauGo omega (phases.zip timestamps)).2 = 0 →
        compute_T_tau phases timestamps tau omega = 0) := by
  refine ⟨?_, ?_, ?_⟩
  · intro h
    simp [compute_T_tau, h]
  · intro h
    simp [engineComputeTtau, h]
  · intro h
    simp only [compute_T_tau]
    split
    · rfl
    · rw [if_neg (by rw [h]; exact lt_irrefl 0)]
      exact computeTtauGo_fst_zero omega _ h

/-- Witness for the amended C1 at concrete degenerate inputs: the empty
window and a window whose two samples carry the same timestamp. -/
theorem resonance_degenerate_defaults_witness :
    (([] : List ℂ).length < 2 ∧ compute_T_tau [] [] 1 1 = 0)
    ∧ ((initEngineState 0).phases.length < 2
        ∧ engineComputeTtau scenarioConfig (initEngineState 0) = 1)
    ∧ ((computeTtauGo 1 (([1, Complex.I] : List ℂ).zip [0, 0])).2 = 0
        ∧ compute_T_tau [1, Complex.I] [0, 0] 1 1 = 0) :=
  ⟨⟨by simp,
      (resonance_degenerate_defaults [] [] 1 1 scenarioConfig
        (initEngineState 0)).1 (by simp)⟩,
    ⟨by simp [initEngineState],
      (resonance_degenerate_defaults [] [] 1 1 scenarioConfig
        (initEngineState 0)).2.1 (by simp [initEngineState])⟩,
    ⟨by simp [computeTtauGo],
      (resonance_degenerate_defaults [1, Complex.I] [0, 0] 1 1 scenarioConfig
        (initEngineState 0)).2.2 (by simp [computeTtauGo])⟩⟩

/-! ## Claim C10: scale invariance of the resonance -/

/-- The renormalized conjugate product cannot see positive real scalings of
either argument. -/
theorem compute_inner_product_scale (a b : ℝ) (ha : 0 < a) (hb : 0 < b)
    (z w : ℂ) :
    compute_inner_product (z * (a : ℂ)) (w * (b : ℂ))
      = compute_inner_product z w := by
  simp only [compute_inner_product]
  have he : (z * (a : ℂ)) * (starRingEnd ℂ) (w * (b : ℂ))
      = (z * (starRingEnd ℂ) w) * ((a : ℂ) * (b : ℂ)) := by
    rw [map_mul, Complex.conj_ofReal]
    ring
  have habs : Complex.abs ((z * (starRingEnd ℂ) w) * ((a : ℂ) * (b : ℂ)))
      = Complex.abs (z * (starRingEnd ℂ) w) * (a * b) := by
    simp only [map_mul, Complex.abs_ofReal, abs_of_pos ha, abs_of_pos hb]
  rw [he, habs]
  by_cases h : 0 < Complex.abs (z * (starRingEnd ℂ) w)
  · rw [if_pos (by positivity), if_pos h]
    have hane : (a : ℂ) ≠ 0 := by
      simpa using ne_of_gt ha
    have hbne : (b : ℂ) ≠ 0 := by
      simpa using ne_of_gt hb
    rw [show ((Complex.abs (z * (starRingEnd ℂ) w) * (a * b) : ℝ) : ℂ)
        = (Complex.abs (z * (starRingEnd ℂ) w) : ℂ) * ((a : ℂ) * (b : ℂ)) by
      push_cast
      ring]
    exact mul_div_mul_right _ _ (mul_ne_zero hane hbne)
  · have h0 : Complex.abs (z * (starRingEnd ℂ) w) = 0 :=
      le_antisymm (not_lt.mp h) (apply_nonneg Complex.abs _)
    have hs : z * (starRingEnd ℂ) w = 0 := by
      rwa [map_eq_zero] at h0
    rw [h0, hs]
    simp

/-- The loop of `compute_T_tau` is invariant under pointwise positive
scaling of the phases. -/
theorem computeTtauGo_posScaled (omega : ℝ) :
    ∀ {l₁ l₂ : List ℂ}, PosScaledC l₁ l₂ → ∀ ts : List ℝ,
      computeTtauGo omega (l₂.zip ts) = computeTtauGo omega (l₁.zip ts) := by
  intro l₁ l₂ h
  induction h with
  | nil => intro ts; rfl
  | cons c z hc htail ih =>
    intro ts
    cases htail with
    | nil => cases ts <;> rfl
    | cons c' z' hc' htail' =>
      cases ts with
      | nil => rfl
      | cons t ts' =>
        cases ts' with
        | nil => rfl
        | cons t' ts'' =>
          have ihapp := ih (t' :: ts'')
          simp only [List.zip_cons_cons] at ihapp ⊢
          simp only [computeTtauGo, ihapp,
            compute_inner_product_scale c' c hc' hc z' z]

/-- Pointwise positive scaling preserves list length. -/
theorem posScaledC_length :
    ∀ {l₁ l₂ : List ℂ}, PosScaledC l₁ l₂ → l₂.length = l₁.length := by
  intro l₁ l₂ h
  induction h with
  | nil => rfl
  | cons c z hc htail ih => simp [ih]

/-- Pointwise positive scaling is reflexive (factors 1). -/
theorem posScaledC_refl : ∀ l : List ℂ, PosScaledC l l
  | [] => .nil
  | z :: rest => by
    have h := PosScaledC.cons 1 z one_pos (posScaledC_refl rest)
    simpa using h

/-- A uniform positive scaling of every phase is a pointwise positive
scaling. -/
theorem posScaledC_map (c : ℝ) (hc : 0 < c) :
    ∀ l : List ℂ, PosScaledC l (l.map (fun p => p * (c : ℂ)))
  | [] => .nil
  | z :: rest => .cons c z hc (posScaledC_map c hc rest)

/-- Appending the same suffix preserves pointwise positive scaling. -/
theorem posScaledC_append {l₁ l₂ : List ℂ} (h : PosScaledC l₁ l₂)
    (more : List ℂ) : PosScaledC (l₁ ++ more) (l₂ ++ more) := by
  induction h with
  | nil => simpa using posScaledC_refl more
  | cons c z hc htail ih => exact .cons c z hc ih

/-- Composing a pointwise positive scaling with a further uniform positive
scaling stays a pointwise positive scaling. -/
theorem posScaledC_map_mul {l₁ l₂ : List ℂ} (h : PosScaledC l₁ l₂) (d : ℝ)
    (hd : 0 < d) : PosScaledC l₁ (l₂.map (fun p => p * (d : ℂ))) := by
  induction h with
  | nil => exact .nil
  | cons c z hc htail ih =>
    have step := PosScaledC.cons (c * d) z (mul_pos hc hd) ih
    simpa [Complex.ofReal_mul, mul_assoc] using step

/-- `compute_T_tau` is invariant under pointwise positive scaling of the
phase list. -/
theorem compute_T_tau_posScaled {phases₁ phases₂ : List ℂ}
    (h : PosScaledC phases₁ phases₂) (timestamps : List ℝ) (tau omega : ℝ) :
    compute_T_tau phases₂ timestamps tau omega
      = compute_T_tau phases₁ timestamps tau omega := by
  simp only [compute_T_tau, posScaledC_length h,
    computeTtauGo_posScaled omega h timestamps]

/-- Claim C10: multiplying every phase by one positive real factor leaves
`compute_T_tau` unchanged (the conjugate products are renormalized to unit
magnitude, so the factors cancel); consequently the engine's post-collapse
`_apply_dampening` — which multiplies every stored phase by the (positive)
dampening factor — never changes the engine's computed resonance, neither
immediately nor after any further phases are appended on top of the
dampened history. -/
theorem dampening_never_changes_resonance :
    (∀ (c : ℝ), 0 < c → ∀ (phases : List ℂ) (timestamps : List ℝ)
        (tau omega : ℝ),
        compute_T_tau (phases.map (fun p => p * (c : ℂ))) timestamps tau omega
          = compute_T_tau phases timestamps tau omega)
    ∧ (∀ (cfg : TemporalConfig) (st : EngineState), 0 < cfg.dampening →
        engineComputeTtau cfg (applyDampening cfg st)
          = engineComputeTtau cfg st)
    ∧ (∀ (cfg : TemporalConfig) (st : EngineState) (more : List ℂ)
        (ts : List ℝ), 0 < cfg.dampening →
        engineComputeTtau cfg
            { st with phases := (applyDampening cfg st).phases ++ more
                      timestamps := ts }
          = engineComputeTtau cfg
              { st with phases := st.phases ++ more, timestamps := ts }) := by
  refine ⟨?_, ?_, ?_⟩
  · intro c hc phases timestamps tau omega
    exact compute_T_tau_posScaled (posScaledC_map c hc phases) timestamps tau
      omega
  · intro cfg st hd
    have h := posScaledC_map cfg.dampening hd st.phases
    simp only [engineComputeTtau, applyDampening, posScaledC_length h]
    split
    · rfl
    · exact compute_T_tau_posScaled h st.timestamps cfg.tau_scale cfg.omega
  · intro cfg st more ts hd
    have h := posScaledC_append (posScaledC_map cfg.dampening hd st.phases) more
    simp only [engineComputeTtau, applyDampening, posScaledC_length h]
    split
    · rfl
    · exact compute_T_tau_posScaled h ts cfg.tau_scale cfg.omega

/-- Witness for C10 at concrete inputs: scaling the two-sample window by 2
does not change its resonance, and dampening the fresh engine's state does
not change its resonance. -/
theorem dampening_never_changes_resonance_witness :
    ((0 : ℝ) < 2
      ∧ compute_T_tau (([1, Complex.I] : List ℂ).map (fun p => p * (2 : ℂ)))
          [0, 1] 1 1 = compute_T_tau [1, Complex.I] [0, 1] 1 1)
    ∧ ((0 : ℝ) < scenarioConfig.dampening
      ∧ engineComputeTtau scenarioConfig
          (applyDampening scenarioConfig (initEngineState 0))
        = engineComputeTtau scenarioConfig (initEngineState 0)) :=
  ⟨⟨by norm_num,
      by
        have h := dampening_never_changes_resonance.1 2 (by norm_num)
          [1, Complex.I] [0, 1] 1 1
        simpa using h⟩,
    ⟨by norm_num [scenarioConfig],
      dampening_never_changes_resonance.2.1 scenarioConfig (initEngineState 0)
        (by norm_num [scenarioConfig])⟩⟩

/-! ## Claim C8: Scenario A -/

/-- The hash-derived input phase lies on the unit circle. -/
theorem input_to_phase_abs (θ : ℝ) : Complex.abs (input_to_phase θ) = 1 := by
  have h : input_to_phase θ = Complex.exp ((θ : ℂ) * Complex.I) := by
    rw [Complex.exp_mul_I, input_to_phase, Complex.ofReal_cos,
      Complex.ofReal_sin]
  rw [h]
  exact Complex.abs_exp_ofReal_mul_I θ

/-- At oscillation rate 2π and integer timestamps the spectral weight is
the unit value. -/
theorem exp_two_pi_nat (n : ℕ) :
    Complex.exp (Complex.I * ((2 * Real.pi : ℝ) : ℂ) * ((n : ℝ) : ℂ)) = 1 := by
  have h : Complex.I * ((2 * Real.pi : ℝ) : ℂ) * ((n : ℝ) : ℂ)
      = ((n : ℤ) : ℂ) * (2 * (Real.pi : ℂ) * Complex.I) := by
    push_cast
    ring
  rw [h]
  exact Complex.exp_int_mul_two_pi_mul_I n

/-- The renormalized conjugate product of a unit phase with itself is 1. -/
theorem compute_inner_product_self (p : ℂ) (hp : Complex.abs p = 1) :
    compute_inner_product p p = 1 := by
  simp only [compute_inner_product]
  have hs : p * (starRingEnd ℂ) p = ((Complex.normSq p : ℝ) : ℂ) :=
    Complex.mul_conj p
  have hn : Complex.normSq p = 1 := by
    rw [Complex.normSq_eq_abs, hp, one_pow]
  rw [hs, hn]
  norm_num

/-- The renormalized conjugate product of a unit phase with the unit
initial phase is the phase itself. -/
theorem compute_inner_product_one (p : ℂ) (hp : Complex.abs p = 1) :
    compute_inner_product p 1 = p := by
  simp only [compute_inner_product]
  rw [map_one, mul_one, hp]
  norm_num

/-- An append below the capacity of a bounded deque is a plain append. -/
theorem dequeAppend_no_drop {α : Type} (maxlen : ℕ) (l : List α) (a : α)
    (h : l.length + 1 ≤ maxlen) : dequeAppend maxlen l a = l ++ [a] := by
  simp only [dequeAppend, List.length_append, List.length_singleton]
  rw [if_neg (by omega)]

/-- The integer-timestamp list grows by its endpoint. -/
theorem timesList_succ (n : ℕ) :
    timesList (n + 1) = timesList n ++ [(n : ℝ)] := by
  simp [timesList, List.range_succ]

/-- Value of the `compute_T_tau` loop on a run of the same unit phase at
consecutive integer seconds: each of the `j` consecutive pairs contributes
the unit inner product times the unit spectral weight times `dt = 1`. -/
theorem computeTtauGo_constChain (p : ℂ) (hp : Complex.abs p = 1) :
    ∀ (j s : ℕ), computeTtauGo (2 * Real.pi) (constChain p s (j + 1))
      = ((j : ℂ), (j : ℝ)) := by
  intro j
  induction j with
  | zero =>
    intro s
    simp [constChain, computeTtauGo]
  | succ j ih =>
    intro s
    rw [show constChain p s (j + 1 + 1)
        = (p, ((s : ℕ) : ℝ)) :: (p, ((s + 1 : ℕ) : ℝ)) :: constChain p (s + 2) j
      from rfl]
    simp only [computeTtauGo]
    have hacc := ih (s + 1)
    rw [show constChain p (s + 1) (j + 1)
        = (p, ((s + 1 : ℕ) : ℝ)) :: constChain p (s + 2) j from rfl] at hacc
    rw [hacc]
    have hdt : ((s + 1 : ℕ) : ℝ) - ((s : ℕ) : ℝ) = 1 := by
      push_cast
      ring
    rw [hdt, if_neg (by norm_num), compute_inner_product_self p hp,
      exp_two_pi_nat (s + 1)]
    rw [Prod.mk.injEq]
    constructor
    · push_cast
      ring
    · push_cast
      ring

/-- Value of the loop on the full Scenario-A window: the initial unit
phase at time 0 followed by `j+1` copies of the input phase at seconds
1 to j+1. -/
theorem computeTtauGo_ideal (p : ℂ) (hp : Complex.abs p = 1) (j : ℕ) :
    computeTtauGo (2 * Real.pi) ((1, (0 : ℝ)) :: constChain p 1 (j + 1))
      = (p + (j : ℂ), (j : ℝ) + 1) := by
  rw [show constChain p 1 (j + 1)
      = (p, ((1 : ℕ) : ℝ)) :: constChain p 2 j from rfl]
  simp only [computeTtauGo]
  have hacc := computeTtauGo_constChain p hp j 1
  rw [show constChain p 1 (j + 1)
      = (p, ((1 : ℕ) : ℝ)) :: constChain p 2 j from rfl] at hacc
  rw [hacc]
  have hdt : ((1 : ℕ) : ℝ) - (0 : ℝ) = 1 := by norm_num
  rw [hdt, if_neg (by norm_num), compute_inner_product_one p hp,
    exp_two_pi_nat 1]
  rw [Prod.mk.injEq]
  constructor
  · push_cast
    ring
  · push_cast
    ring

/-- Zipping a constant phase list with consecutive integer seconds from
`s` gives the constant chain. -/
theorem zip_replicate_chain (p : ℂ) :
    ∀ (k s : ℕ), (List.replicate k p).zip
        ((List.range k).map (fun i => ((s + i : ℕ) : ℝ))) = constChain p s k
  | 0, s => by simp [constChain]
  | k + 1, s => by
    rw [List.replicate_succ, List.range_succ_eq_map]
    simp only [List.map_cons, List.map_map, List.zip_cons_cons]
    rw [show ((fun i => ((s + i : ℕ) : ℝ)) ∘ Nat.succ)
        = (fun i => (((s + 1) + i : ℕ) : ℝ)) from funext (fun i => by
      simp only [Function.comp_apply]
      push_cast
      ring)]
    rw [zip_replicate_chain p k (s + 1)]
    simp [constChain]

/-- The Scenario-A window zipped with its timestamps. -/
theorem zip_ideal (p : ℂ) (k : ℕ) :
    (1 :: List.replicate k p).zip (timesList (k + 1))
      = (1, (0 : ℝ)) :: constChain p 1 k := by
  have h0 : timesList (k + 1)
      = (0 : ℝ) :: (List.range k).map (fun i => ((1 + i : ℕ) : ℝ)) := by
    unfold timesList
    rw [List.range_succ_eq_map, List.map_cons, List.map_map]
    rw [show ((fun (i : ℕ) => (i : ℝ)) ∘ Nat.succ)
        = (fun i => ((1 + i : ℕ) : ℝ)) from funext (fun i => by
      simp only [Function.comp_apply]
      push_cast
      ring)]
    norm_num
  rw [h0, List.zip_cons_cons, zip_replicate_chain p k 1]

/-- Closed form of the Scenario-A resonance after `k ≥ 1` identical
inputs: `(p + (k-1)) / k`. -/
theorem compute_T_tau_ideal (p : ℂ) (hp : Complex.abs p = 1) (k : ℕ)
    (hk : 1 ≤ k) :
    compute_T_tau (1 :: List.replicate k p) (timesList (k + 1)) 1
        (2 * Real.pi)
      = (p + ((k - 1 : ℕ) : ℂ)) / ((k : ℕ) : ℂ) := by
  obtain ⟨j, rfl⟩ : ∃ j, k = j + 1 := ⟨k - 1, by omega⟩
  simp only [compute_T_tau]
  rw [if_neg (by simp only [List.length_cons, List.length_replicate]; omega)]
  rw [zip_ideal p (j + 1), computeTtauGo_ideal p hp j]
  rw [if_pos (by positivity)]
  push_cast
  norm_num

/-- Lower bound on the Scenario-A coherence after N identical inputs:
the resonance `(p + (N-1)) / N` for a unit phase p has squared magnitude at
least `1 - 4/N`. -/
theorem coherence_lower_bound (p : ℂ) (hp : Complex.abs p = 1) (N : ℕ)
    (hN : 1 ≤ N) :
    1 - 4 / (N : ℝ)
      ≤ Complex.abs ((p + ((N - 1 : ℕ) : ℂ)) / ((N : ℕ) : ℂ)) ^ 2 := by
  have hN0 : (0 : ℝ) < (N : ℝ) := by positivity
  have habsm : Complex.abs (((N - 1 : ℕ) : ℂ)) = ((N - 1 : ℕ) : ℝ) :=
    Complex.abs_natCast (N - 1)
  have habsneg : Complex.abs (-p) = 1 := by
    rw [map_neg_eq_map, hp]
  have habs1 : ((N - 1 : ℕ) : ℝ) - 1 ≤ Complex.abs (p + ((N - 1 : ℕ) : ℂ)) := by
    have h := Complex.abs.add_le (p + ((N - 1 : ℕ) : ℂ)) (-p)
    rw [show p + ((N - 1 : ℕ) : ℂ) + -p = ((N - 1 : ℕ) : ℂ) from by ring,
      habsneg, habsm] at h
    linarith
  have habs2 : 1 - ((N - 1 : ℕ) : ℝ) ≤ Complex.abs (p + ((N - 1 : ℕ) : ℂ)) := by
    have h := Complex.abs.add_le (p + ((N - 1 : ℕ) : ℂ)) (-((N - 1 : ℕ) : ℂ))
    rw [add_neg_cancel_right, map_neg_eq_map, habsm, hp] at h
    linarith
  have hsq : (((N - 1 : ℕ) : ℝ) - 1) ^ 2
      ≤ Complex.abs (p + ((N - 1 : ℕ) : ℂ)) ^ 2 := by
    have habs : |((N - 1 : ℕ) : ℝ) - 1| ≤ Complex.abs (p + ((N - 1 : ℕ) : ℂ)) :=
      abs_le.mpr ⟨by linarith, habs1⟩
    calc (((N - 1 : ℕ) : ℝ) - 1) ^ 2 = |((N - 1 : ℕ) : ℝ) - 1| ^ 2 :=
          (sq_abs _).symm
      _ ≤ Complex.abs (p + ((N - 1 : ℕ) : ℂ)) ^ 2 :=
          pow_le_pow_left₀ (abs_nonneg _) habs 2
  have hm : ((N - 1 : ℕ) : ℝ) = (N : ℝ) - 1 := by
    push_cast [Nat.cast_sub hN]
    ring
  rw [map_div₀, Complex.abs_natCast, div_pow,
    le_div_iff₀ (by positivity : (0 : ℝ) < (N : ℝ) ^ 2)]
  have hdiv2 : (1 - 4 / (N : ℝ)) * (N : ℝ) ^ 2 = (N : ℝ) ^ 2 - 4 * (N : ℝ) := by
    field_simp
    ring
  rw [hdiv2]
  rw [hm] at hsq
  nlinarith [hsq]

/-- One Scenario-A engine step: with room in the history, `temporalize`
appends phase and timestamp, reports the coherence of the appended window,
ends (or stays) collapsed — because the step either starts collapsed or
crosses the threshold — and dampens the whole retained phase history. -/
theorem temporalize_step (st : EngineState) (p : ℂ) (t : ℝ)
    (hlen1 : st.phases.length + 1 ≤ 10000)
    (hlen2 : st.timestamps.length + 1 ≤ 10000)
    (hcol : st.collapsed = true
      ∨ scenarioConfig.coherence_threshold
          ≤ Complex.abs (engineComputeTtau scenarioConfig
              { st with phases := st.phases ++ [p]
                        timestamps := st.timestamps ++ [t] }) ^ 2) :
    ((temporalize scenarioConfig st p t).2.phases
        = (st.phases ++ [p]).map (fun z => z * ((0.999 : ℝ) : ℂ)))
    ∧ (temporalize scenarioConfig st p t).2.timestamps = st.timestamps ++ [t]
    ∧ (temporalize scenarioConfig st p t).2.collapsed = true
    ∧ (temporalize scenarioConfig st p t).1.coherence
        = Complex.abs (engineComputeTtau scenarioConfig
            { st with phases := st.phases ++ [p]
                      timestamps := st.timestamps ++ [t] }) ^ 2 := by
  have hhist : scenarioConfig.history_size = 10000 := rfl
  have hda : dequeAppend scenarioConfig.history_size st.phases p
      = st.phases ++ [p] := by
    rw [hhist]
    exact dequeAppend_no_drop 10000 st.phases p hlen1
  have hdb : dequeAppend scenarioConfig.history_size st.timestamps t
      = st.timestamps ++ [t] := by
    rw [hhist]
    exact dequeAppend_no_drop 10000 st.timestamps t hlen2
  have hdamp : scenarioConfig.dampening = 0.999 := rfl
  by_cases hc : st.collapsed = true
  · refine ⟨?_, ?_, ?_, ?_⟩ <;>
      simp only [temporalize, hda, hdb, hc, Bool.true_eq_false, and_false,
        if_false, if_true, applyDampening, hdamp]
  · have hc' : st.collapsed = false := eq_false_of_ne_true hc
    have hthr := hcol.resolve_left hc
    rw [hc'] at hthr
    refine ⟨?_, ?_, ?_, ?_⟩ <;>
      simp only [temporalize, hda, hdb, hc', hthr, and_true, true_and,
        and_self, if_true, applyDampening, hdamp]

/-- The engine resonance of any state whose phases are a positively scaled
copy of the ideal Scenario-A window is the ideal closed form. -/
theorem engineTtau_of_scaled (θ : ℝ) (k : ℕ) (hk : 1 ≤ k) (st : EngineState)
    (hph : PosScaledC (1 :: List.replicate k (input_to_phase θ)) st.phases)
    (hts : st.timestamps = timesList (k + 1)) :
    engineComputeTtau scenarioConfig st
      = (input_to_phase θ + ((k - 1 : ℕ) : ℂ)) / ((k : ℕ) : ℂ) := by
  have hlen : st.phases.length = k + 1 := by
    rw [posScaledC_length hph]
    simp
  simp only [engineComputeTtau]
  rw [if_neg (by omega), hts,
    compute_T_tau_posScaled hph (timesList (k + 1)) scenarioConfig.tau_scale
      scenarioConfig.omega,
    show scenarioConfig.tau_scale = 1 from rfl,
    show scenarioConfig.omega = 2 * Real.pi from rfl]
  exact compute_T_tau_ideal (input_to_phase θ) (input_to_phase_abs θ) k hk

/-- Invariant of the Scenario-A run: after `k ≥ 1` identical inputs the
engine holds the (dampened) ideal window at integer timestamps, is
collapsed, and the state returned by the last `temporalize` carries the
closed-form coherence. -/
theorem runSamePhase_spec (θ : ℝ) :
    ∀ k : ℕ, 1 ≤ k → k ≤ 9998 →
      (runSamePhase θ k).2.timestamps = timesList (k + 1)
      ∧ PosScaledC (1 :: List.replicate k (input_to_phase θ))
          (runSamePhase θ k).2.phases
      ∧ (runSamePhase θ k).2.collapsed = true
      ∧ (runSamePhase θ k).1.coherence
          = Complex.abs ((input_to_phase θ + ((k - 1 : ℕ) : ℂ))
              / ((k : ℕ) : ℂ)) ^ 2 := by
  intro k hk
  induction k, hk using Nat.le_induction with
  | base =>
    intro _
    have hrun0 : (runSamePhase θ 0).2 = initEngineState 0 := rfl
    have hrun : runSamePhase θ 1
        = temporalize scenarioConfig (initEngineState 0) (input_to_phase θ)
            (((0 : ℕ) : ℝ) + 1) := by
      rw [show runSamePhase θ 1
          = temporalize scenarioConfig (runSamePhase θ 0).2 (input_to_phase θ)
              (((0 : ℕ) : ℝ) + 1) from rfl, hrun0]
    have happh : (initEngineState 0).phases ++ [input_to_phase θ]
        = 1 :: List.replicate 1 (input_to_phase θ) := by
      simp [initEngineState]
    have happt : (initEngineState 0).timestamps ++ [((0 : ℕ) : ℝ) + 1]
        = timesList 2 := by
      simp only [initEngineState]
      norm_num [timesList, List.range_succ]
    have hT : engineComputeTtau scenarioConfig
        { initEngineState 0 with
            phases := (initEngineState 0).phases ++ [input_to_phase θ]
            timestamps := (initEngineState 0).timestamps ++ [((0 : ℕ) : ℝ) + 1] }
        = (input_to_phase θ + ((1 - 1 : ℕ) : ℂ)) / ((1 : ℕ) : ℂ) := by
      apply engineTtau_of_scaled θ 1 le_rfl
      · rw [show ({ initEngineState 0 with
            phases := (initEngineState 0).phases ++ [input_to_phase θ]
            timestamps := (initEngineState 0).timestamps ++ [((0 : ℕ) : ℝ) + 1] }
            : EngineState).phases
          = (initEngineState 0).phases ++ [input_to_phase θ] from rfl, happh]
        exact posScaledC_refl _
      · rw [show ({ initEngineState 0 with
            phases := (initEngineState 0).phases ++ [input_to_phase θ]
            timestamps := (initEngineState 0).timestamps ++ [((0 : ℕ) : ℝ) + 1] }
            : EngineState).timestamps
          = (initEngineState 0).timestamps ++ [((0 : ℕ) : ℝ) + 1] from rfl, happt]
    have habs1 : Complex.abs ((input_to_phase θ + ((1 - 1 : ℕ) : ℂ))
        / ((1 : ℕ) : ℂ)) = 1 := by
      norm_num [input_to_phase_abs θ]
    have hstep := temporalize_step (initEngineState 0) (input_to_phase θ)
      (((0 : ℕ) : ℝ) + 1) (by simp [initEngineState]) (by simp [initEngineState])
      (Or.inr (by
        rw [hT, show scenarioConfig.coherence_threshold = 0.9 from rfl, habs1]
        norm_num))
    refine ⟨?_, ?_, ?_, ?_⟩
    · rw [hrun, hstep.2.1, happt]
    · rw [hrun, hstep.1, happh]
      exact posScaledC_map_mul (posScaledC_refl _) 0.999 (by norm_num)
    · rw [hrun]
      exact hstep.2.2.1
    · rw [hrun, hstep.2.2.2, hT]
  | succ k hk ih =>
    intro hk2
    obtain ⟨hts, hph, hcol, _⟩ := ih (by omega)
    have hlenp : (runSamePhase θ k).2.phases.length = k + 1 := by
      rw [posScaledC_length hph]
      simp
    have hlent : (runSamePhase θ k).2.timestamps.length = k + 1 := by
      rw [hts]
      simp [timesList]
    have hrun : runSamePhase θ (k + 1)
        = temporalize scenarioConfig (runSamePhase θ k).2 (input_to_phase θ)
            ((k : ℝ) + 1) := rfl
    have happh : PosScaledC (1 :: List.replicate (k + 1) (input_to_phase θ))
        ((runSamePhase θ k).2.phases ++ [input_to_phase θ]) := by
      have h := posScaledC_append hph [input_to_phase θ]
      rw [List.replicate_succ']
      exact h
    have happt : (runSamePhase θ k).2.timestamps ++ [(k : ℝ) + 1]
        = timesList (k + 2) := by
      rw [hts, timesList_succ (k + 1)]
      congr 1
      norm_num
    have hT : engineComputeTtau scenarioConfig
        { (runSamePhase θ k).2 with
            phases := (runSamePhase θ k).2.phases ++ [input_to_phase θ]
            timestamps := (runSamePhase θ k).2.timestamps ++ [(k : ℝ) + 1] }
        = (input_to_phase θ + ((k + 1 - 1 : ℕ) : ℂ)) / ((k + 1 : ℕ) : ℂ) := by
      apply engineTtau_of_scaled θ (k + 1) (by omega)
      · exact happh
      · exact happt
    have hstep := temporalize_step (runSamePhase θ k).2 (input_to_phase θ)
      ((k : ℝ) + 1) (by omega) (by omega) (Or.inl hcol)
    refine ⟨?_, ?_, ?_, ?_⟩
    · rw [hrun, hstep.2.1, happt]
    · rw [hrun, hstep.1]
      exact posScaledC_map_mul happh 0.999 (by norm_num)
    · rw [hrun]
      exact hstep.2.2.1
    · rw [hrun, hstep.2.2.2, hT]

/-- C8: An Oscillator with integration scale 1.0, oscillation rate 2π and
collapse threshold 0.9, fed the identical phase 50 times at exactly
1-second spacing, ends with coherence ≥ 0.9 and its collapsed flag True;
and in general, after N identical inputs at unit spacing the coherence is
at least 1 − 4/N, so it is driven toward 1 as N grows. -/
theorem oscillator_self_coherence (θ : ℝ) (N : ℕ) (h1 : 1 ≤ N)
    (h2 : N ≤ 9998) :
    ((0.9 : ℝ) ≤ (runSamePhase θ 50).1.coherence
      ∧ (runSamePhase θ 50).2.collapsed = true)
    ∧ 1 - 4 / (N : ℝ) ≤ (runSamePhase θ N).1.coherence := by
  have hspecN := runSamePhase_spec θ N h1 h2
  have hspec50 := runSamePhase_spec θ 50 (by norm_num) (by norm_num)
  refine ⟨⟨?_, hspec50.2.2.1⟩, ?_⟩
  · rw [hspec50.2.2.2]
    calc (0.9 : ℝ) ≤ 1 - 4 / ((50 : ℕ) : ℝ) := by norm_num
      _ ≤ _ := coherence_lower_bound (input_to_phase θ)
          (input_to_phase_abs θ) 50 (by norm_num)
  · rw [hspecN.2.2.2]
    exact coherence_lower_bound (input_to_phase θ) (input_to_phase_abs θ) N h1

/-- Witness for C8 at the concrete angle 0 and N = 50. -/
theorem oscillator_self_coherence_witness :
    ((0.9 : ℝ) ≤ (runSamePhase 0 50).1.coherence
      ∧ (runSamePhase 0 50).2.collapsed = true)
    ∧ 1 - 4 / ((50 : ℕ) : ℝ) ≤ (runSamePhase 0 50).1.coherence :=
  oscillator_self_coherence 0 50 (by norm_num) (by norm_num)

end BecomingOne
